import Mathlib

/-!
Verification of the gh-issue-sync synchronization engine.

This file gives a shallow embedding, in Lean 4, of the core logic of the
repository (internal/app: diff.go, helpers.go, pull.go, storage.go,
comment.go) and proves or refutes the frozen specification claims about it.

Conventions used throughout:
- Go slices become Lean lists; Go strings stay Lean strings except where a
  character-level scan is required (the identifier remapper), where the
  string's character list is used.
- Go maps that are only used for membership tests are embedded as list
  membership over the original lists; Go maps used as partial functions
  become functions into Option.
- Filesystem state is embedded as explicit association lists keyed the way
  the code keys its lookups (issue number for record files and original
  snapshots, file name for comment side-files).
- Functions of the internal issue package (issue.Issue and its helpers) are
  not part of the provided sources; they are modelled from the spec and
  marked as such in their doc comments.
-/

namespace GhIssueSync

/-! ## Diff engine (internal/app/diff.go) -/

/-- Operation kind of a diff op, from the diffOpType constants in diff.go. -/
inductive DiffOpType where
  | equal
  | delete
  | insert
deriving DecidableEq, Repr

/-- One diff operation, from struct diffOp in diff.go. -/
structure DiffOp where
  opType : DiffOpType
  text : String
deriving DecidableEq, Repr

/-- The LCS table of computeDiff (diff.go lines 56-72).  The Go code fills
lcs[i][j] for the length-i and length-j front parts of oldLines and newLines
with the recurrence: diagonal + 1 on equal last lines, otherwise the larger
of dropping the last old line or the last new line.  Embedded structurally:
lcsLen A B is lcs[i][j] where A and B are those front parts reversed, so
that the last line handled by the recurrence is the list head here. -/
def lcsLen : List String → List String → Nat
  | [], _ => 0
  | _ :: _, [] => 0
  | a :: as, b :: bs =>
    if a = b then lcsLen as bs + 1
    else max (lcsLen as (b :: bs)) (lcsLen (a :: as) bs)
termination_by x y => x.length + y.length
decreasing_by
  all_goals simp [List.length_cons]
  all_goals omega

/-- The backtracking loop of computeDiff (diff.go lines 74-89), again with
the lists reversed so that position (i, j) of the Go loop is the pair of
reversed front parts.  The Go loop takes an equal op when the last lines
match, otherwise inserts when j > 0 and (i = 0 or lcs[i][j-1] >= lcs[i-1][j]),
otherwise deletes; the ops are produced back-to-front. -/
def computeDiffRev : List String → List String → List DiffOp
  | [], [] => []
  | o :: os, [] => ⟨.delete, o⟩ :: computeDiffRev os []
  | [], n :: ns => ⟨.insert, n⟩ :: computeDiffRev [] ns
  | o :: os, n :: ns =>
    if o = n then ⟨.equal, o⟩ :: computeDiffRev os ns
    else if lcsLen (o :: os) ns ≥ lcsLen os (n :: ns) then
      ⟨.insert, n⟩ :: computeDiffRev (o :: os) ns
    else
      ⟨.delete, o⟩ :: computeDiffRev os (n :: ns)
termination_by x y => x.length + y.length
decreasing_by
  all_goals simp [List.length_cons]
  all_goals omega

/-- computeDiff (diff.go lines 54-97): backtrack from the full lengths and
reverse the produced ops into forward order. -/
def computeDiff (oldLines newLines : List String) : List DiffOp :=
  (computeDiffRev oldLines.reverse newLines.reverse).reverse

/-- splitLines (diff.go lines 45-51): empty text has no lines; otherwise a
single trailing newline is dropped and the text is split on newlines. -/
def splitLines (text : String) : List String :=
  if text = "" then []
  else (if text.endsWith "\n" then text.dropRight 1 else text).splitOn "\n"

/-- The old text as replayed from a diff script: the lines of the equal and
delete operations, in order. -/
def restoreOld (ops : List DiffOp) : List String :=
  ops.filterMap fun op =>
    match op.opType with
    | .equal => some op.text
    | .delete => some op.text
    | .insert => none

/-- The new text as replayed from a diff script: the lines of the equal and
insert operations, in order. -/
def restoreNew (ops : List DiffOp) : List String :=
  ops.filterMap fun op =>
    match op.opType with
    | .equal => some op.text
    | .insert => some op.text
    | .delete => none

/-- Number of insert operations in a diff script. -/
def countIns : List DiffOp → Nat
  | [] => 0
  | op :: rest => (if op.opType = DiffOpType.insert then 1 else 0) + countIns rest

/-- Number of delete operations in a diff script. -/
def countDel : List DiffOp → Nat
  | [] => 0
  | op :: rest => (if op.opType = DiffOpType.delete then 1 else 0) + countDel rest

/-- Number of equal operations in a diff script. -/
def countEq : List DiffOp → Nat
  | [] => 0
  | op :: rest => (if op.opType = DiffOpType.equal then 1 else 0) + countEq rest

/-- The equal lines of a diff script, in order. -/
def equalsOf (ops : List DiffOp) : List String :=
  ops.filterMap fun op =>
    if op.opType = DiffOpType.equal then some op.text else none

/-- Modelled from the spec, for comparison with the source's backtrack (C5):
"prefer consuming the new-text line (insert) over the old-text line (delete)
when both advance the optimal path equally — i.e., on ties favor emitting
insertions before deletions during backtrack".  So: take the matching line
when the current lines agree; otherwise take the strictly better direction
through the LCS table; on a tie, insert.  Lists are reversed as in
computeDiffRev so that backtracking is structural recursion. -/
def specBacktrackDiff : List String → List String → List DiffOp
  | [], [] => []
  | o :: os, [] => ⟨.delete, o⟩ :: specBacktrackDiff os []
  | [], n :: ns => ⟨.insert, n⟩ :: specBacktrackDiff [] ns
  | o :: os, n :: ns =>
    if o = n then ⟨.equal, o⟩ :: specBacktrackDiff os ns
    else if lcsLen (o :: os) ns > lcsLen os (n :: ns) then
      ⟨.insert, n⟩ :: specBacktrackDiff (o :: os) ns
    else if lcsLen os (n :: ns) > lcsLen (o :: os) ns then
      ⟨.delete, o⟩ :: specBacktrackDiff os (n :: ns)
    else
      ⟨.insert, n⟩ :: specBacktrackDiff (o :: os) ns
termination_by x y => x.length + y.length
decreasing_by
  all_goals simp [List.length_cons]
  all_goals omega

/-! ## Set diff and change sets (internal/app/helpers.go) -/

/-- Ascending sort by string order, the effect of sort.Strings. -/
def sortStrings (l : List String) : List String :=
  l.mergeSort fun a b => decide (a ≤ b)

/-- diffStringSet (helpers.go lines 69-93).  The Go code puts old and new
into hash sets, collects the new-side elements absent from the old set and
the old-side elements absent from the new set, and sorts both slices.  The
hash sets are embedded as deduplicated lists (map iteration order is
irrelevant because each result is sorted), and set membership as list
membership. -/
def diffStringSet (old new : List String) : List String × List String :=
  (sortStrings (new.dedup.filter fun x => decide (x ∉ old)),
   sortStrings (old.dedup.filter fun x => decide (x ∉ new)))

/-- Modelled from the spec: the Record of section 3, one issue, as held by
the issue package (not part of the provided sources).  SyncedAt is a bare
timestamp modelled as a natural number; references are their identifier
strings. -/
structure Issue where
  number : String
  title : String
  body : String
  labels : List String
  assignees : List String
  projects : List String
  milestone : String
  issueType : String
  state : String
  stateReason : Option String
  parent : Option String
  blockedBy : List String
  blocks : List String
  syncedAt : Option Nat
deriving DecidableEq, Repr

/-- The outbound change set ghcli.IssueChange, as used by diffIssue in
helpers.go (the ghcli package is not part of the provided sources; the
fields are the ones diffIssue assigns). -/
structure IssueChange where
  title : Option String
  body : Option String
  milestone : Option String
  issueType : Option String
  stateTransition : Option String
  stateReason : Option String
  addLabels : List String
  removeLabels : List String
  addAssignees : List String
  removeAssignees : List String
  addProjects : List String
  removeProjects : List String
deriving DecidableEq, Repr

/-- normalizeOptional (helpers.go lines 218-223): nil becomes the empty
string. -/
def normalizeOptional : Option String → String
  | none => ""
  | some v => v

/-- diffIssue (helpers.go lines 25-62): the change for a local vs original
issue.  Scalar fields are set when different; collection fields go through
diffStringSet; a state transition is only emitted when the original state
is non-empty and maps to close or reopen; the state reason is set when
either side has one and the normalized values differ. -/
def diffIssue (original localIssue : Issue) : IssueChange :=
  { title := if original.title = localIssue.title then none else some localIssue.title
    body := if original.body = localIssue.body then none else some localIssue.body
    addLabels := (diffStringSet original.labels localIssue.labels).1
    removeLabels := (diffStringSet original.labels localIssue.labels).2
    addAssignees := (diffStringSet original.assignees localIssue.assignees).1
    removeAssignees := (diffStringSet original.assignees localIssue.assignees).2
    addProjects := (diffStringSet original.projects localIssue.projects).1
    removeProjects := (diffStringSet original.projects localIssue.projects).2
    milestone :=
      if original.milestone = localIssue.milestone then none
      else some localIssue.milestone
    issueType :=
      if original.issueType = localIssue.issueType then none
      else some localIssue.issueType
    stateTransition :=
      if original.state ≠ "" ∧ original.state ≠ localIssue.state then
        if localIssue.state = "closed" then some "close"
        else if localIssue.state = "open" then some "reopen"
        else none
      else none
    stateReason :=
      if original.stateReason ≠ none ∨ localIssue.stateReason ≠ none then
        if normalizeOptional original.stateReason ≠
            normalizeOptional localIssue.stateReason then
          some (normalizeOptional localIssue.stateReason)
        else none
      else none }

/-- hasEdits (helpers.go lines 64-67): true when the change touches title,
body, milestone, labels or assignees; issue type, projects, state and state
reason are deliberately not consulted. -/
def hasEdits (change : IssueChange) : Bool :=
  change.title.isSome || change.body.isSome || change.milestone.isSome ||
    decide (0 < change.addLabels.length) ||
    decide (0 < change.removeLabels.length) ||
    decide (0 < change.addAssignees.length) ||
    decide (0 < change.removeAssignees.length)

/-! ## Record equality, paths, and the pull reconciler (internal/app/pull.go) -/

/-- Order-insensitive equality of string collections, used by the modelled
record equality for Labels, Assignees and Projects (spec section 4.4:
set-style comparison). -/
def sameStringSet (a b : List String) : Prop :=
  (∀ x ∈ a, x ∈ b) ∧ (∀ x ∈ b, x ∈ a)

instance (a b : List String) : Decidable (sameStringSet a b) :=
  inferInstanceAs (Decidable (And _ _))

/-- Modelled from the spec: issue.EqualIgnoringSyncedAt (the issue package
is not part of the provided sources).  Spec section 4.4: equality ignores
SyncedAt only; every other field participates, BlockedBy and Blocks
order-sensitively, Labels, Assignees and Projects as sets. -/
def eqIgnoringSyncedAt (a b : Issue) : Prop :=
  a.number = b.number ∧ a.title = b.title ∧ a.body = b.body ∧
  sameStringSet a.labels b.labels ∧ sameStringSet a.assignees b.assignees ∧
  sameStringSet a.projects b.projects ∧ a.milestone = b.milestone ∧
  a.issueType = b.issueType ∧ a.state = b.state ∧
  a.stateReason = b.stateReason ∧ a.parent = b.parent ∧
  a.blockedBy = b.blockedBy ∧ a.blocks = b.blocks

instance (a b : Issue) : Decidable (eqIgnoringSyncedAt a b) :=
  inferInstanceAs (Decidable (And _ _))

/-- ASCII lowercasing of a string, the effect of strings.ToLower on the
state values the code handles. -/
def toLowerStr (s : String) : String :=
  ⟨s.data.map Char.toLower⟩

/-- strings.HasPrefix(s, "T"), used to recognize temporary local issue
numbers. -/
def startsWithT (s : String) : Bool :=
  match s.data with
  | c :: _ => decide (c = 'T')
  | [] => false

/-- Modelled from the spec: the slug part of a record's file name (spec
section 4.1 derives the location from state, number and slugified title;
the slug's exact shape is unspecified, so a simple deterministic one is
used). -/
def slugify (title : String) : String :=
  ⟨title.data.map fun c => if c.isAlphanum then c.toLower else '-'⟩

/-- Modelled from the spec: issue.PathFor, the file location re-derived
from the target directory, number and slugified title (spec section 4.1). -/
def pathFor (dir number title : String) : String :=
  dir ++ "/" ++ number ++ "-" ++ slugify title ++ ".md"

/-- A loaded record file, struct IssueFile of storage.go. -/
structure IssueFile where
  issue : Issue
  path : String
  state : String
deriving DecidableEq, Repr

/-- The directory a remote record is written to (pull.go lines 161-164):
closed/ when its lowercased state is "closed", open/ otherwise.  The state
string doubles as the directory name here. -/
def targetState (r : Issue) : String :=
  if r.state = "closed" then "closed" else "open"

/-- pull.go lines 142-143: before reconciling, the remote record's state is
lowercased and its SyncedAt is set to the current time. -/
def normalizeRemote (now : Nat) (remote : Issue) : Issue :=
  { remote with state := toLowerStr remote.state, syncedAt := some now }

/-- The record file as it exists after issue.WriteFile to the target
directory and a later loadLocalIssues: storage.go line 127 overrides the
parsed record's State with the state of the directory it was found in. -/
def writtenFile (r : Issue) : IssueFile :=
  { issue := { r with state := targetState r }
    path := pathFor (targetState r) r.number r.title
    state := targetState r }

/-- What the reconcile loop of Pull does to a single fetched remote record
(pull.go lines 141-196), as a pure outcome. -/
inductive PullOutcome where
  | conflict
  | unchanged
  | write (renamed added : Bool) (file : IssueFile) (original : Issue)
deriving DecidableEq, Repr

/-- One iteration of the reconcile loop of Pull (pull.go lines 141-196):
the record is skipped as a conflict when a local copy exists that differs
from its original snapshot (or has none) and force is not set; it is
counted unchanged when an original exists and neither content nor path
changed; otherwise the remote is written to its (possibly renamed) path and
the original snapshot is overwritten with the remote. -/
def processRemote (force : Bool) (now : Nat) (localOpt : Option IssueFile)
    (origOpt : Option Issue) (remote : Issue) : PullOutcome :=
  let r := normalizeRemote now remote
  let localChanged : Bool :=
    match localOpt, origOpt with
    | none, _ => false
    | some _, none => true
    | some lf, some o => decide (¬eqIgnoringSyncedAt lf.issue o)
  if localOpt.isSome && localChanged && !force then PullOutcome.conflict
  else
    let newPath := pathFor (targetState r) r.number r.title
    let contentChanged : Bool :=
      match localOpt with
      | none => true
      | some lf => decide (¬eqIgnoringSyncedAt lf.issue r)
    let pathChanged : Bool :=
      match localOpt with
      | none => false
      | some lf => decide (lf.path ≠ newPath)
    if origOpt.isSome && !contentChanged && !pathChanged then PullOutcome.unchanged
    else PullOutcome.write pathChanged localOpt.isNone (writtenFile r) r

/-- The localChanged flag of the reconcile loop (pull.go lines 147-154),
named for reasoning about processRemote. -/
def localChangedB (lo : Option IssueFile) (oo : Option Issue) : Bool :=
  match lo, oo with
  | none, _ => false
  | some _, none => true
  | some lf, some o => decide (¬eqIgnoringSyncedAt lf.issue o)

/-- The contentChanged flag of the reconcile loop (pull.go line 166). -/
def contentChangedB (now : Nat) (lo : Option IssueFile) (r : Issue) : Bool :=
  match lo with
  | none => true
  | some lf => decide (¬eqIgnoringSyncedAt lf.issue (normalizeRemote now r))

/-- The pathChanged flag of the reconcile loop (pull.go line 167). -/
def pathChangedB (now : Nat) (lo : Option IssueFile) (r : Issue) : Bool :=
  match lo with
  | none => false
  | some lf =>
    decide (lf.path ≠ pathFor (targetState (normalizeRemote now r))
      (normalizeRemote now r).number (normalizeRemote now r).title)

/-- First-match lookup in an association list keyed by strings. -/
def lookupAssoc {α : Type} (l : List (String × α)) (n : String) : Option α :=
  (l.find? fun p => decide (p.1 = n)).map Prod.snd

/-- Overwrite-or-append update of an association list keyed by strings. -/
def setAssoc {α : Type} : List (String × α) → String → α → List (String × α)
  | [], n, v => [(n, v)]
  | (k, x) :: rest, n, v =>
    if k = n then (n, v) :: rest else (k, x) :: setAssoc rest n v

/-- The store root's mutable state as the pull touches it: record files in
open/ and closed/ and original snapshots in the sync directory, both keyed
by issue number (the pull code keys every local lookup by
Issue.Number.String(), and writes a record file and its original under that
same number). -/
structure Store where
  locals : List (String × IssueFile)
  originals : List (String × Issue)
deriving DecidableEq, Repr

/-- issue.WriteFile of a reconciled record, as later visible to
loadLocalIssues. -/
def storeWriteLocal (st : Store) (f : IssueFile) : Store :=
  { st with locals := setAssoc st.locals f.issue.number f }

/-- writeOriginalIssue (storage.go lines 183-186). -/
def storeWriteOriginal (st : Store) (i : Issue) : Store :=
  { st with originals := setAssoc st.originals i.number i }

/-- The reconcile loop of Pull (pull.go lines 141-196) over the fetched
remote records: local lookups go through the localByNumber snapshot taken
before the loop (pull.go lines 130-137), original snapshots are read live
(pull.go line 146).  Returns the resulting store, the number of file writes
(each written record costs one record-file write plus one original-snapshot
write) and the number of renames. -/
def pullLoop (force : Bool) (now : Nat) (snapshot : List (String × IssueFile)) :
    List Issue → Store → Store × Nat × Nat
  | [], st => (st, 0, 0)
  | remote :: rest, st =>
    match processRemote force now (lookupAssoc snapshot remote.number)
        (lookupAssoc st.originals remote.number) remote with
    | PullOutcome.conflict => pullLoop force now snapshot rest st
    | PullOutcome.unchanged => pullLoop force now snapshot rest st
    | PullOutcome.write renamed _ f o =>
      let st1 := storeWriteOriginal (storeWriteLocal st f) o
      let res := pullLoop force now snapshot rest st1
      (res.1, res.2.1 + 2, res.2.2 + (if renamed then 1 else 0))

/-- The orphaned original snapshots found by restoreDeletedIssues (pull.go
lines 317-350): originals whose number has no local record file and is not
a temporary T-prefixed number. -/
def orphanedNumbers (st : Store) : List String :=
  st.originals.filterMap fun p =>
    if (lookupAssoc st.locals p.1).isNone && !startsWithT p.1 then some p.1
    else none

/-- The restore loop of restoreDeletedIssues (pull.go lines 356-384): each
orphaned number is fetched from the remote client (a failed fetch is a
warning and skips the record), normalized, written locally and its original
snapshot rewritten; two file writes per restored record, no renames. -/
def restoreFold (client : String → Option Issue) (now : Nat) :
    List String → Store → Store × Nat
  | [], st => (st, 0)
  | n :: rest, st =>
    match client n with
    | none => restoreFold client now rest st
    | some remote =>
      let r := normalizeRemote now remote
      let st1 := storeWriteOriginal (storeWriteLocal st (writtenFile r)) r
      let res := restoreFold client now rest st1
      (res.1, res.2 + 2)

/-- restoreDeletedIssues (pull.go lines 313-387): the orphan list is
computed first from the current store, then each orphan is restored. -/
def restoreDeletedIssues (client : String → Option Issue) (now : Nat)
    (st : Store) : Store × Nat :=
  restoreFold client now (orphanedNumbers st) st

/-- Pull at the store level (pull.go lines 19-311): reconcile every fetched
remote record against the pre-loop local snapshot, then, on a full pull
(no explicit issue arguments), write the advanced last-full-pull timestamp
into the configuration (pull.go lines 198-203, counted as one file write;
the opportunistic cache writes of lines 205-288 would only add further
writes) and restore orphaned originals.  Lock handling, output and the
remote fetch phase are outside this model; the fetched records arrive as
the remotes list and the per-number fetches of the restore phase as the
client function. -/
def pull (fullMode force : Bool) (now : Nat) (remotes : List Issue)
    (client : String → Option Issue) (st : Store) : Store × Nat × Nat :=
  let res := pullLoop force now st.locals remotes st
  if fullMode then
    let res2 := restoreDeletedIssues client now res.1
    (res2.1, res.2.1 + 1 + res2.2, res.2.2)
  else res

/-! ## Record store loading (internal/app/storage.go) -/

/-- Outcome of issue.ParseFile on one record file (the parser itself is an
external collaborator per spec section 1; only success or failure with a
cause matters here). -/
inductive ParseResult where
  | ok (i : Issue)
  | fail (msg : String)
deriving DecidableEq, Repr

/-- One directory entry as returned by os.ReadDir, together with what
issue.ParseFile would yield on it. -/
structure DirEntry where
  name : String
  isDir : Bool
  parse : ParseResult
deriving DecidableEq, Repr

/-- The open/ and closed/ record directories; none means the directory does
not exist (os.ErrNotExist, which loadLocalIssuesWithErrors skips; other
directory read errors are not modelled). -/
structure LocalDirs where
  openDir : Option (List DirEntry)
  closedDir : Option (List DirEntry)
deriving DecidableEq, Repr

/-- ParseError (storage.go lines 74-82): a parse failure attributed to its
file path. -/
structure ParseError where
  path : String
  msg : String
deriving DecidableEq, Repr

/-- LoadResult (storage.go lines 84-88). -/
structure LoadResult where
  issues : List IssueFile
  errors : List ParseError
deriving DecidableEq, Repr

/-- Whether a file name has extension .md (filepath.Ext(name) == ".md"). -/
def strEndsWith (s suffix : String) : Bool :=
  suffix.data.isSuffixOf s.data

/-- The per-directory body of the loop in loadLocalIssuesWithErrors
(storage.go lines 113-129): directories and non-.md entries are skipped, a
parse failure is collected with the file's path and the loop continues, a
parsed record gets its State set from the directory. -/
def loadDirEntries (dirPath state : String) : List DirEntry → LoadResult
  | [] => ⟨[], []⟩
  | e :: rest =>
    if e.isDir || !strEndsWith e.name ".md" then loadDirEntries dirPath state rest
    else
      match e.parse with
      | ParseResult.fail msg =>
        let res := loadDirEntries dirPath state rest
        ⟨res.issues, ⟨dirPath ++ "/" ++ e.name, msg⟩ :: res.errors⟩
      | ParseResult.ok i =>
        let res := loadDirEntries dirPath state rest
        ⟨⟨{ i with state := state }, dirPath ++ "/" ++ e.name, state⟩ :: res.issues,
          res.errors⟩

/-- loadLocalIssuesWithErrors (storage.go lines 98-132): open/ first, then
closed/; a missing directory is skipped.  Paths are the directory path plus
the entry name (the Go error path keeps the two trailing directory
components, which is the same thing for a one-component root). -/
def loadLocalIssuesWithErrors (root : String) (dirs : LocalDirs) : LoadResult :=
  let openRes :=
    match dirs.openDir with
    | none => (⟨[], []⟩ : LoadResult)
    | some es => loadDirEntries (root ++ "/open") "open" es
  let closedRes :=
    match dirs.closedDir with
    | none => (⟨[], []⟩ : LoadResult)
    | some es => loadDirEntries (root ++ "/closed") "closed" es
  ⟨openRes.issues ++ closedRes.issues, openRes.errors ++ closedRes.errors⟩

/-- loadLocalIssues (storage.go lines 90-96): any collected parse error is
promoted to a failure of the whole load, surfacing the first one. -/
def loadLocalIssues (root : String) (dirs : LocalDirs) :
    Except ParseError (List IssueFile) :=
  let res := loadLocalIssuesWithErrors root dirs
  match res.errors with
  | [] => Except.ok res.issues
  | e :: _ => Except.error e

/-- The .md file entries of a directory listing, used to state what the
load must return. -/
def mdEntries (entries : List DirEntry) : List DirEntry :=
  entries.filter fun e => !e.isDir && strEndsWith e.name ".md"

/-- The records a directory listing should contribute: every successfully
parsed .md file, with the directory's state and its path. -/
def parsedRecordsOf (dirPath state : String) (entries : List DirEntry) :
    List IssueFile :=
  (mdEntries entries).filterMap fun e =>
    match e.parse with
    | ParseResult.ok i =>
      some ⟨{ i with state := state }, dirPath ++ "/" ++ e.name, state⟩
    | ParseResult.fail _ => none

/-- The parse failures a directory listing should contribute: one per
failing .md file, carrying its path and cause. -/
def parseFailuresOf (dirPath : String) (entries : List DirEntry) :
    List ParseError :=
  (mdEntries entries).filterMap fun e =>
    match e.parse with
    | ParseResult.ok _ => none
    | ParseResult.fail msg => some ⟨dirPath ++ "/" ++ e.name, msg⟩

/-! ## Pending comments (internal/app/comment.go) -/

/-- One file of an issue directory as the comment scanner sees it. -/
structure FsFile where
  name : String
  isDir : Bool
  content : String
deriving DecidableEq, Repr

/-- PendingComment (comment.go lines 16-21). -/
structure PendingComment where
  issueNumber : String
  body : String
  path : String
deriving DecidableEq, Repr

/-- os.ReadFile of a name inside a directory listing; reading a directory
entry fails. -/
def readDirFile (dir : List FsFile) (name : String) : Option String :=
  (dir.find? fun f => !f.isDir && decide (f.name = name)).map FsFile.content

/-- strings.TrimSpace. -/
def trimSpace (s : String) : String :=
  ⟨((s.data.dropWhile Char.isWhitespace).reverse.dropWhile
      Char.isWhitespace).reverse⟩

/-- Whether a file name matches the glob NUMBER-*.comment.md used by
findPendingComment (comment.go line 39): the name is the number, a dash,
any characters, then .comment.md. -/
def globCommentMatch (number name : String) : Bool :=
  (number ++ "-").data.isPrefixOf name.data &&
  ".comment.md".data.isSuffixOf name.data &&
  decide (number.length + 1 + ".comment.md".length ≤ name.length)

/-- findPendingComment (comment.go lines 25-56): the exact
NUMBER.comment.md name wins; otherwise the first match of the sorted glob
NUMBER-*.comment.md is read.  The body is whitespace-trimmed; found is
modelled by some. -/
def findPendingComment (dirName : String) (dir : List FsFile)
    (number : String) : Option PendingComment :=
  match readDirFile dir (number ++ ".comment.md") with
  | some content =>
    some ⟨number, trimSpace content, dirName ++ "/" ++ number ++ ".comment.md"⟩
  | none =>
    match (sortStrings ((dir.map FsFile.name).filter
        (globCommentMatch number))).head? with
    | none => none
    | some m =>
      match readDirFile dir m with
      | none => none
      | some content => some ⟨number, trimSpace content, dirName ++ "/" ++ m⟩

/-- The capture of commentFilePattern (comment.go line 14), the regular
expression  (backslash d+ or T[a-zA-Z0-9]+) then an optional dash-slug
without dots, then .comment.md : the leading number token of a comment file
name and the remaining stem. -/
def numTokenSplit : List Char → Option (String × List Char)
  | [] => none
  | c :: rest =>
    if c.isDigit then
      some (⟨(c :: rest).takeWhile Char.isDigit⟩,
        (c :: rest).dropWhile Char.isDigit)
    else if c = 'T' then
      let run := rest.takeWhile Char.isAlphanum
      if run.isEmpty then none
      else some (⟨'T' :: run⟩, rest.dropWhile Char.isAlphanum)
    else none

/-- The optional -[^.]+ part of commentFilePattern: nothing, or a dash
followed by at least one character none of which is a dot. -/
def optionalSlugOk : List Char → Bool
  | [] => true
  | '-' :: tail => !tail.isEmpty && tail.all fun c => decide (c ≠ '.')
  | _ => false

/-- The issue number captured by commentFilePattern from a file name, when
the name matches. -/
def commentFileNumber (name : String) : Option String :=
  let cs := name.data
  if ".comment.md".data.isSuffixOf cs then
    match numTokenSplit (cs.take (cs.length - ".comment.md".data.length)) with
    | none => none
    | some (num, rest) => if optionalSlugOk rest then some num else none
  else none

/-- First-wins insertion into the comments map of loadAllPendingComments
(comment.go lines 117-124). -/
def insertIfAbsent (m : List (String × PendingComment)) (k : String)
    (v : PendingComment) : List (String × PendingComment) :=
  if (lookupAssoc m k).isSome then m else m ++ [(k, v)]

/-- The per-directory scan of loadAllPendingComments (comment.go lines
89-125): directories are skipped, only .comment.md names matching
commentFilePattern count, the body is trimmed and an empty body is skipped,
and the first comment found for a number wins. -/
def scanCommentDir (dirName : String) :
    List FsFile → List (String × PendingComment) →
      List (String × PendingComment)
  | [], m => m
  | f :: rest, m =>
    let m1 :=
      if f.isDir then m
      else if !strEndsWith f.name ".comment.md" then m
      else
        match commentFileNumber f.name with
        | none => m
        | some num =>
          let body := trimSpace f.content
          if body = "" then m
          else insertIfAbsent m num ⟨num, body, dirName ++ "/" ++ f.name⟩
    scanCommentDir dirName rest m1

/-- loadAllPendingComments (comment.go lines 80-129): scan open/ then
closed/. -/
def loadAllPendingComments (openDirName closedDirName : String)
    (openDir closedDir : List FsFile) : List (String × PendingComment) :=
  scanCommentDir closedDirName closedDir (scanCommentDir openDirName openDir [])

/-- Whether a string is entirely whitespace (so its trimmed form is empty). -/
def whitespaceOnly (s : String) : Bool :=
  s.data.all Char.isWhitespace

/-! ## Identifier remapping (internal/app/helpers.go lines 95-153) -/

/-- The scan performed by localRefPattern.ReplaceAllStringFunc (helpers.go
lines 99-110 and 113-120) over a text: each non-overlapping leftmost match
of  hash T alnum+  (with a greedy, maximal alphanumeric run) whose
identifier is in the mapping is replaced by hash followed by the mapped
identifier, and the replacement closure records that a mapping hit
occurred; everything else is copied.  Returns the rewritten characters and
whether any mapping hit occurred. -/
def scanRefs (m : String → Option String) : List Char → List Char × Bool
  | [] => ([], false)
  | '#' :: 'T' :: cs =>
    if (cs.takeWhile Char.isAlphanum).isEmpty then
      let res := scanRefs m ('T' :: cs)
      ('#' :: res.1, res.2)
    else
      let res := scanRefs m (cs.dropWhile Char.isAlphanum)
      match m ⟨'T' :: cs.takeWhile Char.isAlphanum⟩ with
      | some real => ('#' :: (real.data ++ res.1), true)
      | none => ('#' :: 'T' :: (cs.takeWhile Char.isAlphanum ++ res.1), res.2)
  | '#' :: rest =>
    let res := scanRefs m rest
    ('#' :: res.1, res.2)
  | c :: rest =>
    let res := scanRefs m rest
    (c :: res.1, res.2)
termination_by cs => cs.length
decreasing_by
  all_goals simp
  have h : (List.dropWhile Char.isAlphanum cs).Sublist cs :=
    List.dropWhile_sublist Char.isAlphanum
  have h2 := h.length_le
  omega

/-- applyMappingToRefs (helpers.go lines 139-153): each reference present
in the mapping is replaced by its canonical identifier and marks the record
changed; order is preserved and unmatched references are untouched. -/
def applyMappingToRefsList (mapping : String → Option String) :
    List String → Bool → List String × Bool
  | [], changed => ([], changed)
  | ref :: rest, changed =>
    match mapping ref with
    | some real =>
      let res := applyMappingToRefsList mapping rest true
      (real :: res.1, res.2)
    | none =>
      let res := applyMappingToRefsList mapping rest changed
      (ref :: res.1, res.2)

/-- applyMapping (helpers.go lines 95-137): rewrite inline references in
body and title, then the parent reference, then the BlockedBy and Blocks
lists; returns the rewritten record and whether anything was hit or
changed (the Go closure sets changed on every mapping hit, and body/title
are additionally compared against their originals). -/
def applyMapping (issueItem : Issue) (mapping : String → Option String) :
    Issue × Bool :=
  let bodyRes := scanRefs mapping issueItem.body.data
  let body : String := ⟨bodyRes.1⟩
  let changed1 := bodyRes.2 || decide (body ≠ issueItem.body)
  let titleRes := scanRefs mapping issueItem.title.data
  let title : String := ⟨titleRes.1⟩
  let changed2 := changed1 || titleRes.2 || decide (title ≠ issueItem.title)
  let parentRes : Option String × Bool :=
    match issueItem.parent with
    | some pRef =>
      match mapping pRef with
      | some real => (some real, true)
      | none => (some pRef, false)
    | none => (none, false)
  let changed3 := changed2 || parentRes.2
  let blockedRes := applyMappingToRefsList mapping issueItem.blockedBy changed3
  let blocksRes := applyMappingToRefsList mapping issueItem.blocks blockedRes.2
  ({ issueItem with
      body := body
      title := title
      parent := parentRes.1
      blockedBy := blockedRes.1
      blocks := blocksRes.1 }, blocksRes.2)

/-- A mapping from retired temporary identifiers to canonical ones: every
key is T-prefixed and every value is a purely numeric identifier (spec
section 3: canonical identifiers are numeric strings assigned by the
remote service, temporary ones are T-prefixed). -/
def canonicalMapping (m : String → Option String) : Prop :=
  (∀ k v, m k = some v → v.data.all Char.isDigit = true) ∧
  (∀ k, (m k).isSome = true → startsWithT k = true)

theorem restoreOld_computeDiffRev (A B : List String) :
    restoreOld (computeDiffRev A B) = A := by
  induction A, B using computeDiffRev.induct with
  | case1 => simp [computeDiffRev, restoreOld]
  | case2 o os ih => simp [computeDiffRev, restoreOld] at ih ⊢; exact ih
  | case3 n ns ih => simp [computeDiffRev, restoreOld] at ih ⊢; exact ih
  | case4 os n ns ih =>
    simp [computeDiffRev, restoreOld] at ih ⊢; exact ih
  | case5 o os n ns hne hge ih =>
    simp [computeDiffRev, hne, hge, restoreOld] at ih ⊢; exact ih
  | case6 o os n ns hne hlt ih =>
    simp [computeDiffRev, hne, hlt, restoreOld] at ih ⊢; exact ih

theorem restoreNew_computeDiffRev (A B : List String) :
    restoreNew (computeDiffRev A B) = B := by
  induction A, B using computeDiffRev.induct with
  | case1 => simp [computeDiffRev, restoreNew]
  | case2 o os ih => simp [computeDiffRev, restoreNew] at ih ⊢; exact ih
  | case3 n ns ih => simp [computeDiffRev, restoreNew] at ih ⊢; exact ih
  | case4 os n ns ih =>
    simp [computeDiffRev, restoreNew] at ih ⊢; exact ih
  | case5 o os n ns hne hge ih =>
    simp [computeDiffRev, hne, hge, restoreNew] at ih ⊢; exact ih
  | case6 o os n ns hne hlt ih =>
    simp [computeDiffRev, hne, hlt, restoreNew] at ih ⊢; exact ih

theorem restoreOld_reverse (ops : List DiffOp) :
    restoreOld ops.reverse = (restoreOld ops).reverse := by
  simp [restoreOld, List.filterMap_reverse]

theorem restoreNew_reverse (ops : List DiffOp) :
    restoreNew ops.reverse = (restoreNew ops).reverse := by
  simp [restoreNew, List.filterMap_reverse]

theorem restoreOld_computeDiff (oldLines newLines : List String) :
    restoreOld (computeDiff oldLines newLines) = oldLines := by
  simp [computeDiff, restoreOld_reverse, restoreOld_computeDiffRev]

theorem restoreNew_computeDiff (oldLines newLines : List String) :
    restoreNew (computeDiff oldLines newLines) = newLines := by
  simp [computeDiff, restoreNew_reverse, restoreNew_computeDiffRev]

/-- C4: for every pair of texts, replaying the equal and delete lines of the
computed diff reconstructs the old text's line split, and replaying the
equal and insert lines reconstructs the new text's line split. -/
theorem computeDiff_reconstructs (x y : String) :
    restoreOld (computeDiff (splitLines x) (splitLines y)) = splitLines x ∧
    restoreNew (computeDiff (splitLines x) (splitLines y)) = splitLines y :=
  ⟨restoreOld_computeDiff _ _, restoreNew_computeDiff _ _⟩

/-! ### Optimality of computeDiff (C5) -/

theorem lcsLen_nil_right (A : List String) : lcsLen A [] = 0 := by
  cases A <;> simp [lcsLen]

theorem lcsLen_cons_self (a : String) (as bs : List String) :
    lcsLen (a :: as) (a :: bs) = lcsLen as bs + 1 := by
  simp [lcsLen]

theorem lcsLen_cons_ne {a b : String} (hne : a ≠ b) (as bs : List String) :
    lcsLen (a :: as) (b :: bs) =
      max (lcsLen as (b :: bs)) (lcsLen (a :: as) bs) := by
  simp [lcsLen, hne]

theorem lcsLen_le_left (A B : List String) : lcsLen A B ≤ A.length := by
  induction A, B using lcsLen.induct with
  | case1 B => simp [lcsLen]
  | case2 a as => simp [lcsLen]
  | case3 as b bs ih =>
    rw [lcsLen_cons_self]
    simpa using Nat.succ_le_succ ih
  | case4 a as b bs hne ih1 ih2 =>
    rw [lcsLen_cons_ne hne]
    simp only [List.length_cons] at ih2 ⊢
    omega

theorem lcsLen_le_right (A B : List String) : lcsLen A B ≤ B.length := by
  induction A, B using lcsLen.induct with
  | case1 B => simp [lcsLen]
  | case2 a as => simp [lcsLen]
  | case3 as b bs ih =>
    rw [lcsLen_cons_self]
    simpa using Nat.succ_le_succ ih
  | case4 a as b bs hne ih1 ih2 =>
    rw [lcsLen_cons_ne hne]
    simp only [List.length_cons] at ih1 ⊢
    omega

theorem countDel_computeDiffRev (A B : List String) :
    countDel (computeDiffRev A B) + lcsLen A B = A.length := by
  induction A, B using computeDiffRev.induct with
  | case1 => simp [computeDiffRev, countDel, lcsLen]
  | case2 o os ih =>
    simp [computeDiffRev, countDel, lcsLen_nil_right] at ih ⊢
    omega
  | case3 n ns ih =>
    simp [computeDiffRev, countDel, lcsLen] at ih ⊢
    omega
  | case4 os n ns ih =>
    simp [computeDiffRev, countDel, lcsLen_cons_self] at ih ⊢
    omega
  | case5 o os n ns hne hge ih =>
    rw [lcsLen_cons_ne hne, Nat.max_eq_right hge]
    simp [computeDiffRev, hne, hge, countDel] at ih ⊢
    omega
  | case6 o os n ns hne hlt ih =>
    have hlt' : lcsLen (o :: os) ns < lcsLen os (n :: ns) := Nat.lt_of_not_le hlt
    rw [lcsLen_cons_ne hne, Nat.max_eq_left (Nat.le_of_lt hlt')]
    simp [computeDiffRev, hne, hlt, countDel] at ih ⊢
    omega

theorem countIns_computeDiffRev (A B : List String) :
    countIns (computeDiffRev A B) + lcsLen A B = B.length := by
  induction A, B using computeDiffRev.induct with
  | case1 => simp [computeDiffRev, countIns, lcsLen]
  | case2 o os ih =>
    simp [computeDiffRev, countIns, lcsLen_nil_right] at ih ⊢
    omega
  | case3 n ns ih =>
    simp [computeDiffRev, countIns, lcsLen] at ih ⊢
    omega
  | case4 os n ns ih =>
    simp [computeDiffRev, countIns, lcsLen_cons_self] at ih ⊢
    omega
  | case5 o os n ns hne hge ih =>
    rw [lcsLen_cons_ne hne, Nat.max_eq_right hge]
    simp [computeDiffRev, hne, hge, countIns] at ih ⊢
    omega
  | case6 o os n ns hne hlt ih =>
    have hlt' : lcsLen (o :: os) ns < lcsLen os (n :: ns) := Nat.lt_of_not_le hlt
    rw [lcsLen_cons_ne hne, Nat.max_eq_left (Nat.le_of_lt hlt')]
    simp [computeDiffRev, hne, hlt, countIns] at ih ⊢
    omega

/-- Any common subsequence of A and B is no longer than lcsLen A B. -/
theorem length_le_lcsLen (A : List String) :
    ∀ (B C : List String), C.Sublist A → C.Sublist B → C.length ≤ lcsLen A B := by
  induction A with
  | nil =>
    intro B C hCA _
    simp [List.sublist_nil.mp hCA, lcsLen]
  | cons a as ihA =>
    intro B
    induction B with
    | nil =>
      intro C _ hCB
      simp [List.sublist_nil.mp hCB, lcsLen_nil_right]
    | cons b bs ihB =>
      intro C hCA hCB
      by_cases hab : a = b
      · subst hab
        rw [lcsLen_cons_self]
        match C, hCA with
        | [], _ => simp
        | c :: cs, hCA =>
          cases hCA with
          | cons₂ _ hcs =>
            have hcs' : cs.Sublist bs := by
              cases hCB with
              | cons₂ _ h => exact h
              | cons _ h => exact (List.sublist_cons_self a cs).trans h
            have := ihA bs cs hcs hcs'
            simpa using Nat.succ_le_succ this
          | cons _ hCA' =>
            cases hCB with
            | cons _ h =>
              have := ihA bs (c :: cs) hCA' h
              omega
            | cons₂ _ h =>
              have hcs : cs.Sublist as :=
                (List.sublist_cons_self a cs).trans hCA'
              have := ihA bs cs hcs h
              simp only [List.length_cons]
              omega
      · rw [lcsLen_cons_ne hab]
        match C, hCA with
        | [], _ => simp
        | c :: cs, hCA =>
          cases hCA with
          | cons _ hCA' =>
            have := ihA (b :: bs) (c :: cs) hCA' hCB
            exact le_trans this (le_max_left _ _)
          | cons₂ _ hcs =>
            cases hCB with
            | cons _ hCB' =>
              have := ihB (a :: cs) (List.Sublist.cons₂ a hcs) hCB'
              exact le_trans this (le_max_right _ _)
            | cons₂ _ h => exact absurd rfl hab

/-- lcsLen A B is achieved by an actual common subsequence. -/
theorem exists_cs_lcsLen (A : List String) :
    ∀ B : List String, ∃ C : List String,
      C.Sublist A ∧ C.Sublist B ∧ C.length = lcsLen A B := by
  induction A with
  | nil =>
    intro B
    exact ⟨[], List.nil_sublist _, List.nil_sublist _, by simp [lcsLen]⟩
  | cons a as ihA =>
    intro B
    induction B with
    | nil =>
      exact ⟨[], List.nil_sublist _, List.nil_sublist _,
        by simp [lcsLen_nil_right]⟩
    | cons b bs ihB =>
      by_cases hab : a = b
      · subst hab
        obtain ⟨C, hCA, hCB, hlen⟩ := ihA bs
        exact ⟨a :: C, List.Sublist.cons₂ a hCA, List.Sublist.cons₂ a hCB,
          by simp [lcsLen_cons_self, hlen]⟩
      · rw [lcsLen_cons_ne hab]
        by_cases hcmp : lcsLen as (b :: bs) ≥ lcsLen (a :: as) bs
        · obtain ⟨C, hCA, hCB, hlen⟩ := ihA (b :: bs)
          refine ⟨C, List.Sublist.cons a hCA, hCB, ?_⟩
          omega
        · obtain ⟨C, hCA, hCB, hlen⟩ := ihB
          refine ⟨C, hCA, List.Sublist.cons b hCB, ?_⟩
          omega

theorem length_restoreOld (ops : List DiffOp) :
    (restoreOld ops).length = countEq ops + countDel ops := by
  induction ops with
  | nil => simp [restoreOld, countEq, countDel]
  | cons op rest ih =>
    simp only [restoreOld, List.filterMap_cons, countEq, countDel] at ih ⊢
    cases h : op.opType <;> simp [h, restoreOld] at ih ⊢ <;> omega

theorem length_restoreNew (ops : List DiffOp) :
    (restoreNew ops).length = countEq ops + countIns ops := by
  induction ops with
  | nil => simp [restoreNew, countEq, countIns]
  | cons op rest ih =>
    simp only [restoreNew, List.filterMap_cons, countEq, countIns] at ih ⊢
    cases h : op.opType <;> simp [h, restoreNew] at ih ⊢ <;> omega

theorem length_equalsOf (ops : List DiffOp) :
    (equalsOf ops).length = countEq ops := by
  induction ops with
  | nil => simp [equalsOf, countEq]
  | cons op rest ih =>
    simp only [equalsOf, List.filterMap_cons, countEq] at ih ⊢
    cases h : op.opType <;> simp [h, equalsOf] at ih ⊢ <;> omega

theorem equalsOf_sublist_restoreOld (ops : List DiffOp) :
    (equalsOf ops).Sublist (restoreOld ops) := by
  induction ops with
  | nil => simp [equalsOf, restoreOld]
  | cons op rest ih =>
    simp only [equalsOf, restoreOld, List.filterMap_cons] at ih ⊢
    cases h : op.opType <;> simp [h] <;>
      first
        | exact List.Sublist.cons₂ _ ih
        | exact List.Sublist.cons _ ih
        | exact ih

theorem equalsOf_sublist_restoreNew (ops : List DiffOp) :
    (equalsOf ops).Sublist (restoreNew ops) := by
  induction ops with
  | nil => simp [equalsOf, restoreNew]
  | cons op rest ih =>
    simp only [equalsOf, restoreNew, List.filterMap_cons] at ih ⊢
    cases h : op.opType <;> simp [h] <;>
      first
        | exact List.Sublist.cons₂ _ ih
        | exact List.Sublist.cons _ ih
        | exact ih

theorem countDel_append (l1 l2 : List DiffOp) :
    countDel (l1 ++ l2) = countDel l1 + countDel l2 := by
  induction l1 with
  | nil => simp [countDel]
  | cons op rest ih => simp [countDel, ih]; omega

theorem countIns_append (l1 l2 : List DiffOp) :
    countIns (l1 ++ l2) = countIns l1 + countIns l2 := by
  induction l1 with
  | nil => simp [countIns]
  | cons op rest ih => simp [countIns, ih]; omega

theorem countDel_reverse (l : List DiffOp) : countDel l.reverse = countDel l := by
  induction l with
  | nil => rfl
  | cons op rest ih =>
    simp [List.reverse_cons, countDel_append, countDel, ih]
    omega

theorem countIns_reverse (l : List DiffOp) : countIns l.reverse = countIns l := by
  induction l with
  | nil => rfl
  | cons op rest ih =>
    simp [List.reverse_cons, countIns_append, countIns, ih]
    omega

theorem computeDiffRev_eq_specBacktrackDiff (A B : List String) :
    computeDiffRev A B = specBacktrackDiff A B := by
  induction A, B using computeDiffRev.induct with
  | case1 => simp [computeDiffRev, specBacktrackDiff]
  | case2 o os ih => simp [computeDiffRev, specBacktrackDiff, ih]
  | case3 n ns ih => simp [computeDiffRev, specBacktrackDiff, ih]
  | case4 os n ns ih => simp [computeDiffRev, specBacktrackDiff, ih]
  | case5 o os n ns hne hge ih =>
    rcases Nat.lt_or_ge (lcsLen os (n :: ns)) (lcsLen (o :: os) ns) with hgt | hle
    · simp [computeDiffRev, specBacktrackDiff, hne, hge, hgt, ih]
    · have heq : lcsLen (o :: os) ns = lcsLen os (n :: ns) :=
        Nat.le_antisymm hle hge
      have h1 : ¬lcsLen (o :: os) ns > lcsLen os (n :: ns) := by omega
      have h2 : ¬lcsLen os (n :: ns) > lcsLen (o :: os) ns := by omega
      simp [computeDiffRev, specBacktrackDiff, hne, hge, h1, h2, ih]
  | case6 o os n ns hne hlt ih =>
    have hgt : lcsLen os (n :: ns) > lcsLen (o :: os) ns := Nat.lt_of_not_le hlt
    have h1 : ¬lcsLen (o :: os) ns > lcsLen os (n :: ns) := by omega
    simp [computeDiffRev, specBacktrackDiff, hne, hlt, hgt, h1, ih]

/-- C5: the edit script from computeDiff is optimal and deterministic.  With
L the longest-common-subsequence length of the two line sequences (witnessed
below to be exactly that), the script has oldLines.length - L deletes and
newLines.length - L inserts (stated additively to avoid Nat truncation);
every script that reconstructs both texts uses at least as many inserts plus
deletes; and the script equals the one picked by the spec's backtracking
tie-break rule that prefers insert over delete when both directions advance
the LCS table equally. -/
theorem computeDiff_optimal (oldLines newLines : List String) :
    countDel (computeDiff oldLines newLines) +
        lcsLen oldLines.reverse newLines.reverse = oldLines.length ∧
    countIns (computeDiff oldLines newLines) +
        lcsLen oldLines.reverse newLines.reverse = newLines.length ∧
    (∀ C : List String, C.Sublist oldLines → C.Sublist newLines →
      C.length ≤ lcsLen oldLines.reverse newLines.reverse) ∧
    (∃ C : List String, C.Sublist oldLines ∧ C.Sublist newLines ∧
      C.length = lcsLen oldLines.reverse newLines.reverse) ∧
    (∀ s : List DiffOp, restoreOld s = oldLines → restoreNew s = newLines →
      countIns (computeDiff oldLines newLines) +
          countDel (computeDiff oldLines newLines) ≤
        countIns s + countDel s) ∧
    computeDiff oldLines newLines =
      (specBacktrackDiff oldLines.reverse newLines.reverse).reverse := by
  have hdel : countDel (computeDiff oldLines newLines) +
      lcsLen oldLines.reverse newLines.reverse = oldLines.length := by
    rw [computeDiff, countDel_reverse, countDel_computeDiffRev]
    simp
  have hins : countIns (computeDiff oldLines newLines) +
      lcsLen oldLines.reverse newLines.reverse = newLines.length := by
    rw [computeDiff, countIns_reverse, countIns_computeDiffRev]
    simp
  have hbound : ∀ C : List String, C.Sublist oldLines → C.Sublist newLines →
      C.length ≤ lcsLen oldLines.reverse newLines.reverse := by
    intro C hCA hCB
    have h := length_le_lcsLen oldLines.reverse newLines.reverse C.reverse
      (List.reverse_sublist.mpr hCA) (List.reverse_sublist.mpr hCB)
    simpa using h
  refine ⟨hdel, hins, hbound, ?_, ?_, ?_⟩
  · obtain ⟨C, hCA, hCB, hlen⟩ :=
      exists_cs_lcsLen oldLines.reverse newLines.reverse
    refine ⟨C.reverse, ?_, ?_, by simpa using hlen⟩
    · have := List.reverse_sublist.mpr hCA
      simpa using this
    · have := List.reverse_sublist.mpr hCB
      simpa using this
  · intro s hsOld hsNew
    have h1 : (restoreOld s).length = countEq s + countDel s := length_restoreOld s
    have h2 : (restoreNew s).length = countEq s + countIns s := length_restoreNew s
    rw [hsOld] at h1
    rw [hsNew] at h2
    have hEqBound : countEq s ≤ lcsLen oldLines.reverse newLines.reverse := by
      have hsubOld : (equalsOf s).Sublist oldLines := by
        have := equalsOf_sublist_restoreOld s
        rwa [hsOld] at this
      have hsubNew : (equalsOf s).Sublist newLines := by
        have := equalsOf_sublist_restoreNew s
        rwa [hsNew] at this
      have := hbound (equalsOf s) hsubOld hsubNew
      rwa [length_equalsOf] at this
    omega
  · rw [computeDiff, computeDiffRev_eq_specBacktrackDiff]

/-- Witness for C5 at a concrete input: the script insert-then-delete also
reconstructs old ["a"] and new ["b"], and the computed diff uses no more
insert plus delete operations than it; the trivial common subsequence bound
is also instantiated. -/
theorem computeDiff_optimal_witness :
    restoreOld [⟨DiffOpType.insert, "b"⟩, ⟨DiffOpType.delete, "a"⟩] = ["a"] ∧
    restoreNew [⟨DiffOpType.insert, "b"⟩, ⟨DiffOpType.delete, "a"⟩] = ["b"] ∧
    countIns (computeDiff ["a"] ["b"]) + countDel (computeDiff ["a"] ["b"]) ≤
      countIns [⟨DiffOpType.insert, "b"⟩, ⟨DiffOpType.delete, "a"⟩] +
        countDel [⟨DiffOpType.insert, "b"⟩, ⟨DiffOpType.delete, "a"⟩] ∧
    ([] : List String).length ≤ lcsLen ["a"].reverse ["b"].reverse :=
  ⟨rfl, rfl,
    (computeDiff_optimal ["a"] ["b"]).2.2.2.2.1 _ rfl rfl,
    (computeDiff_optimal ["a"] ["b"]).2.2.1 [] (List.nil_sublist _)
      (List.nil_sublist _)⟩

/-! ### Set diff (C6) -/

theorem mem_sortStrings (l : List String) (x : String) :
    x ∈ sortStrings l ↔ x ∈ l :=
  (List.mergeSort_perm l _).mem_iff

theorem sorted_sortStrings (l : List String) :
    (sortStrings l).Sorted (· ≤ ·) := by
  have h : List.Pairwise (fun a b : String => decide (a ≤ b) = true)
      (l.mergeSort fun a b => decide (a ≤ b)) :=
    List.sorted_mergeSort
      (fun a b c hab hbc => by
        simp only [decide_eq_true_eq] at hab hbc ⊢
        exact le_trans hab hbc)
      (fun a b => by
        simp only [Bool.or_eq_true, decide_eq_true_eq]
        exact le_total a b)
      l
  unfold sortStrings
  exact h.imp fun hab => of_decide_eq_true hab

theorem nodup_sortStrings {l : List String} (h : l.Nodup) :
    (sortStrings l).Nodup :=
  (List.mergeSort_perm l _).nodup_iff.mpr h

theorem mem_diffStringSet_add (old new : List String) (x : String) :
    x ∈ (diffStringSet old new).1 ↔ (x ∈ new ∧ x ∉ old) := by
  simp [diffStringSet, mem_sortStrings, List.mem_filter, List.mem_dedup]

theorem mem_diffStringSet_remove (old new : List String) (x : String) :
    x ∈ (diffStringSet old new).2 ↔ (x ∈ old ∧ x ∉ new) := by
  simp [diffStringSet, mem_sortStrings, List.mem_filter, List.mem_dedup]

/-- C6: diffStringSet returns the two set differences, each sorted
ascending without duplicates, and removing the removed elements from the
old collection and adding the added ones yields exactly the new collection
as a set. -/
theorem diffStringSet_correct (old new : List String) :
    (∀ x, x ∈ (diffStringSet old new).1 ↔ (x ∈ new ∧ x ∉ old)) ∧
    (∀ x, x ∈ (diffStringSet old new).2 ↔ (x ∈ old ∧ x ∉ new)) ∧
    (diffStringSet old new).1.Sorted (· ≤ ·) ∧
    (diffStringSet old new).1.Nodup ∧
    (diffStringSet old new).2.Sorted (· ≤ ·) ∧
    (diffStringSet old new).2.Nodup ∧
    (∀ x, ((x ∈ old ∧ x ∉ (diffStringSet old new).2) ∨
        x ∈ (diffStringSet old new).1) ↔ x ∈ new) := by
  refine ⟨mem_diffStringSet_add old new, mem_diffStringSet_remove old new,
    sorted_sortStrings _, nodup_sortStrings ((List.nodup_dedup _).filter _),
    sorted_sortStrings _, nodup_sortStrings ((List.nodup_dedup _).filter _),
    ?_⟩
  intro x
  rw [mem_diffStringSet_add, mem_diffStringSet_remove]
  by_cases hxo : x ∈ old <;> by_cases hxn : x ∈ new <;> simp [hxo, hxn]

/-! ### hasEdits (C10) -/

theorem diffStringSet_add_nil_iff (old new : List String) :
    (diffStringSet old new).1 = [] ↔ ∀ x ∈ new, x ∈ old := by
  rw [List.eq_nil_iff_forall_not_mem]
  constructor
  · intro h x hx
    by_contra hxo
    exact h x ((mem_diffStringSet_add old new x).mpr ⟨hx, hxo⟩)
  · intro h x hx
    obtain ⟨hxn, hxo⟩ := (mem_diffStringSet_add old new x).mp hx
    exact hxo (h x hxn)

theorem diffStringSet_remove_nil_iff (old new : List String) :
    (diffStringSet old new).2 = [] ↔ ∀ x ∈ old, x ∈ new := by
  rw [List.eq_nil_iff_forall_not_mem]
  constructor
  · intro h x hx
    by_contra hxn
    exact h x ((mem_diffStringSet_remove old new x).mpr ⟨hx, hxn⟩)
  · intro h x hx
    obtain ⟨hxo, hxn⟩ := (mem_diffStringSet_remove old new x).mp hx
    exact hxn (h x hxo)

theorem diffStringSet_nil_iff_sameStringSet (old new : List String) :
    ((diffStringSet old new).1 = [] ∧ (diffStringSet old new).2 = []) ↔
      sameStringSet old new := by
  rw [diffStringSet_add_nil_iff, diffStringSet_remove_nil_iff]
  unfold sameStringSet
  tauto

theorem isSome_ite_none {c : Prop} [Decidable c] {v : String} :
    (if c then none else some v).isSome = true ↔ ¬c := by
  by_cases h : c <;> simp [h]

/-- C10: hasEdits on a diffIssue change set is true exactly when title,
body or milestone changed or the label or assignee sets differ; when only
projects, issue type, state or state reason differ it reports no edits. -/
theorem hasEdits_diffIssue (o l : Issue) :
    (hasEdits (diffIssue o l) = true ↔
      (o.title ≠ l.title ∨ o.body ≠ l.body ∨ o.milestone ≠ l.milestone ∨
        ¬sameStringSet o.labels l.labels ∨
        ¬sameStringSet o.assignees l.assignees)) ∧
    (hasEdits (diffIssue o l) = false ↔
      (o.title = l.title ∧ o.body = l.body ∧ o.milestone = l.milestone ∧
        sameStringSet o.labels l.labels ∧
        sameStringSet o.assignees l.assignees)) := by
  have hmain : hasEdits (diffIssue o l) = true ↔
      (o.title ≠ l.title ∨ o.body ≠ l.body ∨ o.milestone ≠ l.milestone ∨
        ¬sameStringSet o.labels l.labels ∨
        ¬sameStringSet o.assignees l.assignees) := by
    have hlab := diffStringSet_nil_iff_sameStringSet o.labels l.labels
    have hass := diffStringSet_nil_iff_sameStringSet o.assignees l.assignees
    simp only [hasEdits, diffIssue, Bool.or_eq_true, isSome_ite_none,
      decide_eq_true_eq, List.length_pos, ne_eq]
    tauto
  refine ⟨hmain, ?_⟩
  rw [← Bool.not_eq_true, hmain]
  tauto

/-! ### Record store loading (C2) -/

theorem loadDirEntries_issues (dirPath state : String) (entries : List DirEntry) :
    (loadDirEntries dirPath state entries).issues =
      parsedRecordsOf dirPath state entries := by
  induction entries with
  | nil => simp [loadDirEntries, parsedRecordsOf, mdEntries]
  | cons e rest ih =>
    by_cases hskip : e.isDir || !strEndsWith e.name ".md"
    · have hmd : ¬(!e.isDir && strEndsWith e.name ".md") = true := by
        cases hd : e.isDir <;> simp_all
      simp [loadDirEntries, hskip, parsedRecordsOf, mdEntries,
        List.filter_cons, hmd] at ih ⊢
      simpa [parsedRecordsOf, mdEntries] using ih
    · have hmd : (!e.isDir && strEndsWith e.name ".md") = true := by
        cases hd : e.isDir <;> simp_all
      cases hp : e.parse with
      | fail msg =>
        simp [loadDirEntries, hskip, hp, parsedRecordsOf, mdEntries,
          List.filter_cons, hmd] at ih ⊢
        simpa [parsedRecordsOf, mdEntries] using ih
      | ok i =>
        simp [loadDirEntries, hskip, hp, parsedRecordsOf, mdEntries,
          List.filter_cons, hmd] at ih ⊢
        simpa [parsedRecordsOf, mdEntries] using ih

theorem loadDirEntries_errors (dirPath state : String) (entries : List DirEntry) :
    (loadDirEntries dirPath state entries).errors =
      parseFailuresOf dirPath entries := by
  induction entries with
  | nil => simp [loadDirEntries, parseFailuresOf, mdEntries]
  | cons e rest ih =>
    by_cases hskip : e.isDir || !strEndsWith e.name ".md"
    · have hmd : ¬(!e.isDir && strEndsWith e.name ".md") = true := by
        cases hd : e.isDir <;> simp_all
      simp [loadDirEntries, hskip, parseFailuresOf, mdEntries,
        List.filter_cons, hmd] at ih ⊢
      simpa [parseFailuresOf, mdEntries] using ih
    · have hmd : (!e.isDir && strEndsWith e.name ".md") = true := by
        cases hd : e.isDir <;> simp_all
      cases hp : e.parse with
      | fail msg =>
        simp [loadDirEntries, hskip, hp, parseFailuresOf, mdEntries,
          List.filter_cons, hmd] at ih ⊢
        simpa [parseFailuresOf, mdEntries] using ih
      | ok i =>
        simp [loadDirEntries, hskip, hp, parseFailuresOf, mdEntries,
          List.filter_cons, hmd] at ih ⊢
        simpa [parseFailuresOf, mdEntries] using ih

/-- C2 (amended): loadLocalIssuesWithErrors tolerates malformed files -
every successfully parsed record is returned alongside one collected error
per failing file, each carrying the failing file's path - but the
loadLocalIssues wrapper that Pull actually calls promotes any parse error
to a failure of the whole load, so one malformed record file does abort a
pull. -/
theorem loadLocalIssues_collects_but_aborts (root : String) (dirs : LocalDirs) :
    (loadLocalIssuesWithErrors root dirs).issues =
      parsedRecordsOf (root ++ "/open") "open" (dirs.openDir.getD []) ++
        parsedRecordsOf (root ++ "/closed") "closed" (dirs.closedDir.getD []) ∧
    (loadLocalIssuesWithErrors root dirs).errors =
      parseFailuresOf (root ++ "/open") (dirs.openDir.getD []) ++
        parseFailuresOf (root ++ "/closed") (dirs.closedDir.getD []) ∧
    ((loadLocalIssuesWithErrors root dirs).errors = [] →
      loadLocalIssues root dirs =
        Except.ok (loadLocalIssuesWithErrors root dirs).issues) ∧
    (∀ e rest, (loadLocalIssuesWithErrors root dirs).errors = e :: rest →
      loadLocalIssues root dirs = Except.error e) := by
  refine ⟨?_, ?_, ?_, ?_⟩
  · cases ho : dirs.openDir <;> cases hc : dirs.closedDir <;>
      simp [loadLocalIssuesWithErrors, ho, hc, loadDirEntries_issues,
        loadDirEntries, parsedRecordsOf, mdEntries]
  · cases ho : dirs.openDir <;> cases hc : dirs.closedDir <;>
      simp [loadLocalIssuesWithErrors, ho, hc, loadDirEntries_errors,
        loadDirEntries, parseFailuresOf, mdEntries]
  · intro h
    simp [loadLocalIssues, h]
  · intro e rest h
    simp [loadLocalIssues, h]

/-- Witness for C2 at a concrete store with one good and one malformed
record file: the tolerant loader returns the good record and the collected
error, and the strict loader used by Pull fails with that error. -/
theorem loadLocalIssues_collects_but_aborts_witness :
    (loadLocalIssuesWithErrors ".issues"
        ⟨some [⟨"1-good.md", false,
            ParseResult.ok ⟨"1", "T", "B", [], [], [], "", "", "open",
              none, none, [], [], none⟩⟩,
          ⟨"2-bad.md", false, ParseResult.fail "bad header"⟩],
         some []⟩).errors =
      [⟨".issues/open/2-bad.md", "bad header"⟩] ∧
    loadLocalIssues ".issues"
        ⟨some [⟨"1-good.md", false,
            ParseResult.ok ⟨"1", "T", "B", [], [], [], "", "", "open",
              none, none, [], [], none⟩⟩,
          ⟨"2-bad.md", false, ParseResult.fail "bad header"⟩],
         some []⟩ =
      Except.error ⟨".issues/open/2-bad.md", "bad header"⟩ :=
  ⟨by decide,
    (loadLocalIssues_collects_but_aborts ".issues" _).2.2.2
      ⟨".issues/open/2-bad.md", "bad header"⟩ [] (by decide)⟩

/-- C2 counterexample: with a store whose open directory holds one good
and one malformed record file, the load path used by Pull (pull.go lines
36-39 and 130-133 call loadLocalIssues, whose error return aborts Pull)
fails outright instead of continuing, refuting the claim that a single
malformed record file never aborts a whole pull. -/
theorem singleBadFile_aborts_pull :
    loadLocalIssues ".issues"
        ⟨some [⟨"1-good.md", false,
            ParseResult.ok ⟨"1", "T", "B", [], [], [], "", "", "open",
              none, none, [], [], none⟩⟩,
          ⟨"2-bad.md", false, ParseResult.fail "bad header"⟩],
         some []⟩ =
      Except.error ⟨".issues/open/2-bad.md", "bad header"⟩ ∧
    (loadLocalIssuesWithErrors ".issues"
        ⟨some [⟨"1-good.md", false,
            ParseResult.ok ⟨"1", "T", "B", [], [], [], "", "", "open",
              none, none, [], [], none⟩⟩,
          ⟨"2-bad.md", false, ParseResult.fail "bad header"⟩],
         some []⟩).issues =
      [⟨⟨"1", "T", "B", [], [], [], "", "", "open", none, none, [], [], none⟩,
        ".issues/open/1-good.md", "open"⟩] :=
  ⟨rfl, rfl⟩

/-! ### Association list lemmas -/

theorem lookupAssoc_cons {α : Type} (k : String) (x : α)
    (rest : List (String × α)) (n : String) :
    lookupAssoc ((k, x) :: rest) n =
      if k = n then some x else lookupAssoc rest n := by
  by_cases h : k = n <;> simp [lookupAssoc, List.find?_cons, h]

theorem lookupAssoc_setAssoc_self {α : Type} (l : List (String × α))
    (n : String) (v : α) : lookupAssoc (setAssoc l n v) n = some v := by
  induction l with
  | nil => simp [setAssoc, lookupAssoc_cons, lookupAssoc]
  | cons p rest ih =>
    obtain ⟨k, x⟩ := p
    by_cases h : k = n <;> simp [setAssoc, h, lookupAssoc_cons, ih]

theorem lookupAssoc_setAssoc_ne {α : Type} (l : List (String × α))
    (n : String) (v : α) (m : String) (h : m ≠ n) :
    lookupAssoc (setAssoc l n v) m = lookupAssoc l m := by
  have h' : n ≠ m := Ne.symm h
  induction l with
  | nil => simp [setAssoc, lookupAssoc_cons, lookupAssoc, h']
  | cons p rest ih =>
    obtain ⟨k, x⟩ := p
    by_cases hk : k = n
    · subst hk
      simp [setAssoc, lookupAssoc_cons, h']
    · simp [setAssoc, hk, lookupAssoc_cons, ih]

theorem lookupAssoc_isSome_setAssoc {α : Type} (l : List (String × α))
    (n : String) (v : α) (m : String)
    (h : (lookupAssoc l m).isSome = true) :
    (lookupAssoc (setAssoc l n v) m).isSome = true := by
  by_cases hm : m = n
  · subst hm
    simp [lookupAssoc_setAssoc_self]
  · rwa [lookupAssoc_setAssoc_ne l n v m hm]

theorem lookupAssoc_mem_of_isSome {α : Type} (l : List (String × α))
    (n : String) (h : (lookupAssoc l n).isSome = true) :
    ∃ v, (n, v) ∈ l := by
  induction l with
  | nil => simp [lookupAssoc] at h
  | cons p rest ih =>
    obtain ⟨k, x⟩ := p
    by_cases hk : k = n
    · subst hk
      exact ⟨x, List.mem_cons_self _ _⟩
    · rw [lookupAssoc_cons, if_neg hk] at h
      obtain ⟨v, hv⟩ := ih h
      exact ⟨v, List.mem_cons_of_mem _ hv⟩

theorem lookupAssoc_append_single_ne {α : Type} (m : List (String × α))
    (k : String) (v : α) (n : String) (h : n ≠ k) :
    lookupAssoc (m ++ [(k, v)]) n = lookupAssoc m n := by
  have h' : ¬k = n := fun he => h he.symm
  induction m with
  | nil => simp [lookupAssoc_cons, lookupAssoc, h']
  | cons p rest ih =>
    obtain ⟨k1, x1⟩ := p
    by_cases hk : k1 = n <;> simp [lookupAssoc_cons, hk, ih]

/-! ### Pending comments (C9) -/

theorem trimSpace_of_whitespaceOnly {s : String}
    (h : whitespaceOnly s = true) : trimSpace s = "" := by
  have h1 : s.data.dropWhile Char.isWhitespace = [] := by
    rw [List.dropWhile_eq_nil_iff]
    intro x hx
    exact List.all_eq_true.mp h x hx
  simp [trimSpace, h1]

theorem lookupAssoc_insertIfAbsent_ne (m : List (String × PendingComment))
    (k : String) (v : PendingComment) (n : String) (h : n ≠ k) :
    lookupAssoc (insertIfAbsent m k v) n = lookupAssoc m n := by
  unfold insertIfAbsent
  by_cases hs : (lookupAssoc m k).isSome <;>
    simp [hs, lookupAssoc_append_single_ne m k v n h]

theorem scanCommentDir_none (dirName : String) (files : List FsFile)
    (m : List (String × PendingComment)) (number : String)
    (hm : lookupAssoc m number = none)
    (hws : ∀ f ∈ files, commentFileNumber f.name = some number →
      whitespaceOnly f.content = true) :
    lookupAssoc (scanCommentDir dirName files m) number = none := by
  induction files generalizing m with
  | nil => simpa [scanCommentDir] using hm
  | cons f rest ih =>
    rw [scanCommentDir]
    refine ih _ ?_ fun g hg hgn => hws g (List.mem_cons_of_mem _ hg) hgn
    by_cases hd : f.isDir = true
    · simpa [hd] using hm
    · by_cases hsfx : strEndsWith f.name ".comment.md" = true
      · cases hn : commentFileNumber f.name with
        | none => simpa [hd, hsfx, hn] using hm
        | some num =>
          by_cases hnum : num = number
          · subst hnum
            have hfws := hws f (List.mem_cons_self _ _) hn
            have ht : trimSpace f.content = "" :=
              trimSpace_of_whitespaceOnly hfws
            simpa [hd, hsfx, hn, ht] using hm
          · by_cases hbody : trimSpace f.content = ""
            · simpa [hd, hsfx, hn, hbody] using hm
            · have hins : lookupAssoc (insertIfAbsent m num
                  ⟨num, trimSpace f.content, dirName ++ "/" ++ f.name⟩)
                  number = none := by
                rw [lookupAssoc_insertIfAbsent_ne _ _ _ _
                  fun he => hnum he.symm]
                exact hm
              simpa [hd, hsfx, hn, hbody] using hins
      · simpa [hd, hsfx] using hm

/-- C9 (amended): a whitespace-only comment side-file is skipped by the
bulk scan loadAllPendingComments, which reports no pending comment for the
issue; the per-issue lookup findPendingComment, however, still reports a
found pending comment for it, merely with an empty body. -/
theorem pendingComment_empty_handling :
    (∀ dirName dir number content,
      readDirFile dir (number ++ ".comment.md") = some content →
      whitespaceOnly content = true →
      findPendingComment dirName dir number =
        some ⟨number, "", dirName ++ "/" ++ number ++ ".comment.md"⟩) ∧
    (∀ openName closedName openDir closedDir number,
      (∀ f ∈ openDir ++ closedDir, commentFileNumber f.name = some number →
        whitespaceOnly f.content = true) →
      lookupAssoc
        (loadAllPendingComments openName closedName openDir closedDir)
        number = none) := by
  constructor
  · intro dirName dir number content hread hws
    unfold findPendingComment
    rw [hread]
    simp [trimSpace_of_whitespaceOnly hws]
  · intro openName closedName openDir closedDir number hws
    unfold loadAllPendingComments
    refine scanCommentDir_none _ _ _ _ ?_ fun f hf => hws f ?_
    · exact scanCommentDir_none _ _ _ _ rfl fun f hf =>
        hws f (List.mem_append_left _ hf)
    · exact List.mem_append_right _ hf

/-- Witness for C9 at concrete stores: a whitespace-only preferred comment
file makes findPendingComment report a (found, empty-body) comment, and a
whitespace-only comment file for issue 7 leaves the bulk scan without an
entry for 7. -/
theorem pendingComment_empty_handling_witness :
    findPendingComment "open" [⟨"42.comment.md", false, "  \n "⟩] "42" =
      some ⟨"42", "", "open/42.comment.md"⟩ ∧
    lookupAssoc
      (loadAllPendingComments "open" "closed"
        [⟨"7.comment.md", false, " \n "⟩] []) "7" = none :=
  ⟨pendingComment_empty_handling.1 "open" _ "42" "  \n " rfl (by decide),
    pendingComment_empty_handling.2 "open" "closed" _ [] "7" (by decide)⟩

/-- C9 counterexample: for the store with the single whitespace-only
comment file 42.comment.md, findPendingComment reports a pending comment
(found is true, with empty body) instead of reporting none. -/
theorem findPendingComment_whitespace_counterexample :
    findPendingComment "open" [⟨"42.comment.md", false, "  \n "⟩] "42" =
      some ⟨"42", "", "open/42.comment.md"⟩ ∧
    whitespaceOnly "  \n " = true :=
  ⟨by decide, by decide⟩

/-! ### Identifier remapping (C7) -/

theorem scanRefs_cons_ne_hash (m : String → Option String) {c : Char}
    (rest : List Char) (hc : c ≠ '#') :
    scanRefs m (c :: rest) = (c :: (scanRefs m rest).1, (scanRefs m rest).2) := by
  simp [scanRefs, hc]

theorem scanRefs_hash_not_T (m : String → Option String) (rest : List Char)
    (h : ∀ cs, rest = 'T' :: cs → False) :
    scanRefs m ('#' :: rest) =
      ('#' :: (scanRefs m rest).1, (scanRefs m rest).2) := by
  cases rest with
  | nil => simp [scanRefs]
  | cons d t =>
    by_cases hd : d = 'T'
    · subst hd
      exact absurd rfl (h t)
    · simp [scanRefs, hd]

theorem scanRefs_hashT_empty (m : String → Option String) (cs : List Char)
    (h : (cs.takeWhile Char.isAlphanum).isEmpty = true) :
    scanRefs m ('#' :: 'T' :: cs) =
      ('#' :: (scanRefs m ('T' :: cs)).1, (scanRefs m ('T' :: cs)).2) := by
  simp [scanRefs, h]

theorem scanRefs_hashT_hit (m : String → Option String) (cs : List Char)
    (hne : ¬(cs.takeWhile Char.isAlphanum).isEmpty = true) (real : String)
    (hm : m ⟨'T' :: cs.takeWhile Char.isAlphanum⟩ = some real) :
    scanRefs m ('#' :: 'T' :: cs) =
      ('#' :: (real.data ++ (scanRefs m (cs.dropWhile Char.isAlphanum)).1),
        true) := by
  simp [scanRefs, hne, hm]

theorem scanRefs_hashT_miss (m : String → Option String) (cs : List Char)
    (hne : ¬(cs.takeWhile Char.isAlphanum).isEmpty = true)
    (hm : m ⟨'T' :: cs.takeWhile Char.isAlphanum⟩ = none) :
    scanRefs m ('#' :: 'T' :: cs) =
      ('#' :: 'T' :: (cs.takeWhile Char.isAlphanum ++
          (scanRefs m (cs.dropWhile Char.isAlphanum)).1),
        (scanRefs m (cs.dropWhile Char.isAlphanum)).2) := by
  simp [scanRefs, hne, hm]

theorem scanRefs_head (m : String → Option String) (s : List Char) :
    (scanRefs m s).1.head? = s.head? := by
  induction s using scanRefs.induct m with
  | case1 => simp [scanRefs]
  | case2 cs h ih => rw [scanRefs_hashT_empty m cs h]; simp
  | case3 cs hne real hm ih => rw [scanRefs_hashT_hit m cs hne real hm]; simp
  | case4 cs hne hm ih => rw [scanRefs_hashT_miss m cs hne hm]; simp
  | case5 rest h ih => rw [scanRefs_hash_not_T m rest h]; simp
  | case6 c rest h hc ih =>
    rw [scanRefs_cons_ne_hash m rest fun he => hc he]
    simp

theorem scanRefs_append_no_hash (m : String → Option String)
    (ds X : List Char) (h : ∀ c ∈ ds, c ≠ '#') :
    scanRefs m (ds ++ X) = (ds ++ (scanRefs m X).1, (scanRefs m X).2) := by
  induction ds with
  | nil => simp
  | cons d t ih =>
    rw [List.cons_append,
      scanRefs_cons_ne_hash m _ (h d (List.mem_cons_self _ _)),
      ih fun c hc => h c (List.mem_cons_of_mem _ hc)]
    simp

theorem takeWhile_append_of_all {p : Char → Bool} (A B : List Char)
    (hA : ∀ a ∈ A, p a = true) :
    (A ++ B).takeWhile p = A ++ B.takeWhile p := by
  have hself : A.takeWhile p = A := List.takeWhile_eq_self_iff.mpr hA
  rw [List.takeWhile_append, hself]
  simp

theorem dropWhile_append_of_all {p : Char → Bool} (A B : List Char)
    (hA : ∀ a ∈ A, p a = true) :
    (A ++ B).dropWhile p = B.dropWhile p := by
  have hnil : A.dropWhile p = [] := List.dropWhile_eq_nil_iff.mpr hA
  rw [List.dropWhile_append, hnil]
  simp

theorem takeWhile_eq_nil_of_head_false {p : Char → Bool} {l : List Char}
    (h : ∀ a, l.head? = some a → p a = false) : l.takeWhile p = [] := by
  cases l with
  | nil => rfl
  | cons a t => simp [List.takeWhile_cons, h a rfl]

theorem dropWhile_eq_self_of_head_false {p : Char → Bool} {l : List Char}
    (h : ∀ a, l.head? = some a → p a = false) : l.dropWhile p = l := by
  cases l with
  | nil => rfl
  | cons a t => simp [List.dropWhile_cons, h a rfl]

theorem head_dropWhile_false {p : Char → Bool} (l : List Char) :
    ∀ a, (l.dropWhile p).head? = some a → p a = false := by
  intro a ha
  have h := List.head?_dropWhile_not p l
  rw [ha] at h
  exact h

theorem digit_ne_hash {c : Char} (h : c.isDigit = true) : c ≠ '#' := by
  intro he
  subst he
  exact absurd h (by decide)

theorem digit_ne_T {c : Char} (h : c.isDigit = true) : c ≠ 'T' := by
  intro he
  subst he
  exact absurd h (by decide)

theorem scanRefs_idem (m : String → Option String)
    (hdig : ∀ k v, m k = some v → v.data.all Char.isDigit = true)
    (s : List Char) :
    scanRefs m (scanRefs m s).1 = ((scanRefs m s).1, false) := by
  induction s using scanRefs.induct m with
  | case1 => simp [scanRefs]
  | case2 cs h ih =>
    have hT : scanRefs m ('T' :: cs) =
        ('T' :: (scanRefs m cs).1, (scanRefs m cs).2) :=
      scanRefs_cons_ne_hash m cs (by decide)
    have hrun : (((scanRefs m cs).1).takeWhile Char.isAlphanum).isEmpty = true := by
      cases cs with
      | nil => simp [scanRefs]
      | cons a t =>
        have ha : Char.isAlphanum a = false := by
          rw [List.takeWhile_cons] at h
          by_cases hpa : Char.isAlphanum a = true
          · simp [hpa] at h
          · simpa using hpa
        have hhead : (scanRefs m (a :: t)).1.head? = some a := by
          rw [scanRefs_head]
          rfl
        obtain ⟨ys, hys⟩ := List.head?_eq_some_iff.mp hhead
        rw [hys, List.takeWhile_cons, ha]
        rfl
    rw [scanRefs_hashT_empty m cs h, hT]
    have ih' : scanRefs m ('T' :: (scanRefs m cs).1) =
        ('T' :: (scanRefs m cs).1, false) := by
      rw [hT] at ih
      exact ih
    rw [scanRefs_hashT_empty m _ hrun, ih']
  | case3 cs hne real hm ih =>
    rw [scanRefs_hashT_hit m cs hne real hm]
    have hYhead : ∀ a,
        ((scanRefs m (cs.dropWhile Char.isAlphanum)).1).head? = some a →
          Char.isAlphanum a = false := by
      intro a ha
      rw [scanRefs_head] at ha
      exact head_dropWhile_false _ a ha
    have hnotT : ∀ cs',
        (scanRefs m (cs.dropWhile Char.isAlphanum)).1 = 'T' :: cs' → False := by
      intro cs' hcs'
      have := hYhead 'T' (by rw [hcs']; rfl)
      exact absurd this (by decide)
    have hdigs : ∀ c ∈ real.data, c.isDigit = true :=
      List.all_eq_true.mp (hdig _ _ hm)
    cases hrd : real.data with
    | nil =>
      simp only [hrd, List.nil_append]
      rw [scanRefs_hash_not_T m _ hnotT, ih]
    | cons d ds =>
      have hdd : d.isDigit = true := hdigs d (by rw [hrd]; exact List.mem_cons_self _ _)
      have hdsd : ∀ c ∈ d :: ds, c ≠ '#' := by
        intro c hc
        exact digit_ne_hash (hdigs c (by rw [hrd]; exact hc))
      have hnotT2 : ∀ cs',
          (d :: ds) ++ (scanRefs m (cs.dropWhile Char.isAlphanum)).1 =
            'T' :: cs' → False := by
        intro cs' hcs'
        rw [List.cons_append] at hcs'
        have hdT : d = 'T' := (List.cons.injEq _ _ _ _ ▸ hcs').1
        exact absurd hdT (digit_ne_T hdd)
      rw [List.cons_append] at hnotT2 ⊢
      rw [scanRefs_hash_not_T m _ (by
        intro cs' hcs'
        cases hcs'
        exact absurd rfl (digit_ne_T hdd))]
      rw [show d :: (ds ++ (scanRefs m (cs.dropWhile Char.isAlphanum)).1) =
        (d :: ds) ++ (scanRefs m (cs.dropWhile Char.isAlphanum)).1 from rfl]
      rw [scanRefs_append_no_hash m _ _ hdsd, ih]
  | case4 cs hne hm ih =>
    rw [scanRefs_hashT_miss m cs hne hm]
    have hruns : ∀ c ∈ cs.takeWhile Char.isAlphanum, Char.isAlphanum c = true :=
      fun c hc => List.mem_takeWhile_imp hc
    have hYhead : ∀ a,
        ((scanRefs m (cs.dropWhile Char.isAlphanum)).1).head? = some a →
          Char.isAlphanum a = false := by
      intro a ha
      rw [scanRefs_head] at ha
      exact head_dropWhile_false _ a ha
    have htake : ((cs.takeWhile Char.isAlphanum) ++
        (scanRefs m (cs.dropWhile Char.isAlphanum)).1).takeWhile Char.isAlphanum =
          cs.takeWhile Char.isAlphanum := by
      rw [takeWhile_append_of_all _ _ hruns,
        takeWhile_eq_nil_of_head_false hYhead, List.append_nil]
    have hdrop : ((cs.takeWhile Char.isAlphanum) ++
        (scanRefs m (cs.dropWhile Char.isAlphanum)).1).dropWhile Char.isAlphanum =
          (scanRefs m (cs.dropWhile Char.isAlphanum)).1 := by
      rw [dropWhile_append_of_all _ _ hruns,
        dropWhile_eq_self_of_head_false hYhead]
    have hne2 : ¬(((cs.takeWhile Char.isAlphanum) ++
        (scanRefs m (cs.dropWhile Char.isAlphanum)).1).takeWhile
          Char.isAlphanum).isEmpty = true := by
      rw [htake]
      exact hne
    have hm2 : m ⟨'T' :: ((cs.takeWhile Char.isAlphanum) ++
        (scanRefs m (cs.dropWhile Char.isAlphanum)).1).takeWhile
          Char.isAlphanum⟩ = none := by
      rw [htake]
      exact hm
    rw [scanRefs_hashT_miss m _ hne2 hm2, htake, hdrop, ih]
  | case5 rest h ih =>
    rw [scanRefs_hash_not_T m rest h]
    have hnotT : ∀ cs', (scanRefs m rest).1 = 'T' :: cs' → False := by
      intro cs' hcs'
      have hh : rest.head? = some 'T' := by
        rw [← scanRefs_head m rest, hcs']
        rfl
      obtain ⟨ys, hys⟩ := List.head?_eq_some_iff.mp hh
      exact h ys hys
    rw [scanRefs_hash_not_T m _ hnotT, ih]
  | case6 c rest h hc ih =>
    have hc' : c ≠ '#' := fun he => hc he
    rw [scanRefs_cons_ne_hash m rest hc',
      scanRefs_cons_ne_hash m _ hc', ih]

theorem startsWithT_false_of_digits {v : String}
    (h : v.data.all Char.isDigit = true) : startsWithT v = false := by
  unfold startsWithT
  cases hv : v.data with
  | nil => rfl
  | cons c t =>
    have hc : c.isDigit = true := List.all_eq_true.mp h c (by rw [hv]; exact List.mem_cons_self _ _)
    simp [digit_ne_T hc]

theorem applyMappingToRefsList_idem (m : String → Option String)
    (hnone : ∀ k v, m k = some v → m v = none) :
    ∀ (refs : List String) (b b' : Bool),
      applyMappingToRefsList m (applyMappingToRefsList m refs b).1 b' =
        ((applyMappingToRefsList m refs b).1, b') := by
  intro refs
  induction refs with
  | nil => intro b b'; simp [applyMappingToRefsList]
  | cons ref rest ih =>
    intro b b'
    cases hm : m ref with
    | some real =>
      have hreal : m real = none := hnone ref real hm
      simp [applyMappingToRefsList, hm, hreal, ih]
    | none =>
      simp [applyMappingToRefsList, hm, ih]

/-- C7: applying a temporary-to-canonical identifier mapping a second time
changes nothing: the record is returned unchanged and reported as not
modified. -/
theorem applyMapping_idem (issueItem : Issue) (m : String → Option String)
    (hc : canonicalMapping m) :
    applyMapping (applyMapping issueItem m).1 m =
      ((applyMapping issueItem m).1, false) := by
  obtain ⟨hdig, hT⟩ := hc
  have hmnone : ∀ v : String, v.data.all Char.isDigit = true → m v = none := by
    intro v hv
    cases hmv : m v with
    | none => rfl
    | some w =>
      have hw := hT v (by simp [hmv])
      rw [startsWithT_false_of_digits hv] at hw
      exact absurd hw (by simp)
  have hnone : ∀ k v, m k = some v → m v = none := fun k v hkv =>
    hmnone v (hdig k v hkv)
  cases issueItem with
  | mk num titl bod labs asg prj mil ity st sr par bb bl sy =>
    simp only [applyMapping]
    simp only [scanRefs_idem m hdig]
    cases par with
    | none =>
      simp [applyMappingToRefsList_idem m hnone]
    | some p =>
      cases hmp : m p with
      | some real =>
        have hreal : m real = none := hnone p real hmp
        simp [hmp, hreal, applyMappingToRefsList_idem m hnone]
      | none =>
        simp [hmp, applyMappingToRefsList_idem m hnone]

/-- Witness for C7 at a concrete record and mapping (T1 to 101): a record
whose title, body, parent and blocked-by list all mention T1 is remapped,
and the second application returns it unchanged and not modified. -/
theorem applyMapping_idem_witness :
    applyMapping
      (applyMapping
        ⟨"T2", "Fix #T1", "see #T1 and #Tother", [], [], [], "", "",
          "open", none, some "T1", ["T1", "9"], [], none⟩
        fun k => if k = "T1" then some "101" else none).1
      (fun k => if k = "T1" then some "101" else none) =
      ((applyMapping
        ⟨"T2", "Fix #T1", "see #T1 and #Tother", [], [], [], "", "",
          "open", none, some "T1", ["T1", "9"], [], none⟩
        fun k => if k = "T1" then some "101" else none).1, false) :=
  applyMapping_idem _ _
    ⟨fun k v h => by
      by_cases hk : k = "T1"
      · have h' : some ("101" : String) = some v := by simpa [hk] using h
        cases h'
        decide
      · simp [hk] at h,
     fun k h => by
      by_cases hk : k = "T1"
      · subst hk
        decide
      · simp [hk] at h⟩

/-! ### Pull conflict classification (C1) -/

/-- C1 (amended): with a local copy and an original snapshot present and
force unset, the reconcile loop reports the record as a conflict if and
only if the local record differs from the original snapshot (ignoring
SyncedAt) - the remote record is not consulted at all - and a conflicting
record is skipped, leaving the store untouched. -/
theorem pull_conflict_iff (now : Nat) (lf : IssueFile) (o : Issue)
    (remote : Issue) :
    (processRemote false now (some lf) (some o) remote = PullOutcome.conflict ↔
      ¬eqIgnoringSyncedAt lf.issue o) ∧
    (∀ (snapshot : List (String × IssueFile)) (rest : List Issue) (st : Store),
      lookupAssoc snapshot remote.number = some lf →
      lookupAssoc st.originals remote.number = some o →
      ¬eqIgnoringSyncedAt lf.issue o →
      pullLoop false now snapshot (remote :: rest) st =
        pullLoop false now snapshot rest st) := by
  constructor
  · by_cases h : eqIgnoringSyncedAt lf.issue o
    · constructor
      · intro hcon
        simp only [processRemote] at hcon
        simp [h] at hcon
        split at hcon <;> simp_all
      · intro hne
        exact absurd h hne
    · simp [processRemote, h]
  · intro snapshot rest st hsnap horig hne
    rw [pullLoop, hsnap, horig]
    have : processRemote false now (some lf) (some o) remote =
        PullOutcome.conflict := by
      simp [processRemote, hne]
    rw [this]

/-- C1 counterexample: original O, local L differing from O only in its
title, remote equal to O.  The claim predicts a clean local update (not a
conflict), but the code reports the record as a conflict: the conflict
branch of pull.go line 156 tests only whether the local differs from the
original. -/
theorem conflict_despite_clean_remote_counterexample :
    processRemote false 5
      (some ⟨⟨"1", "A2", "B", [], [], [], "", "", "open", none, none, [], [],
        none⟩, "open/1-a2.md", "open"⟩)
      (some ⟨"1", "A", "B", [], [], [], "", "", "open", none, none, [], [],
        none⟩)
      ⟨"1", "A", "B", [], [], [], "", "", "open", none, none, [], [], none⟩ =
      PullOutcome.conflict ∧
    eqIgnoringSyncedAt
      ⟨"1", "A", "B", [], [], [], "", "", "open", none, none, [], [], none⟩
      ⟨"1", "A", "B", [], [], [], "", "", "open", none, none, [], [], none⟩ ∧
    ¬eqIgnoringSyncedAt
      ⟨"1", "A2", "B", [], [], [], "", "", "open", none, none, [], [], none⟩
      ⟨"1", "A", "B", [], [], [], "", "", "open", none, none, [], [], none⟩ := by
  refine ⟨?_, by decide, by decide⟩
  decide

/-- Witness for C1 at a concrete store: a record whose local copy differs
from its original snapshot is skipped by the loop regardless of the remote
being identical to the original. -/
theorem pull_conflict_iff_witness :
    pullLoop false 5
      [("1", ⟨⟨"1", "A2", "B", [], [], [], "", "", "open", none, none, [],
        [], none⟩, "open/1-a2.md", "open"⟩)]
      [⟨"1", "A", "B", [], [], [], "", "", "open", none, none, [], [], none⟩]
      ⟨[("1", ⟨⟨"1", "A2", "B", [], [], [], "", "", "open", none, none, [],
        [], none⟩, "open/1-a2.md", "open"⟩)],
       [("1", ⟨"1", "A", "B", [], [], [], "", "", "open", none, none, [], [],
        none⟩)]⟩ =
      pullLoop false 5
        [("1", ⟨⟨"1", "A2", "B", [], [], [], "", "", "open", none, none, [],
          [], none⟩, "open/1-a2.md", "open"⟩)]
        []
        ⟨[("1", ⟨⟨"1", "A2", "B", [], [], [], "", "", "open", none, none, [],
          [], none⟩, "open/1-a2.md", "open"⟩)],
         [("1", ⟨"1", "A", "B", [], [], [], "", "", "open", none, none, [],
          [], none⟩)]⟩ :=
  (pull_conflict_iff 5
      ⟨⟨"1", "A2", "B", [], [], [], "", "", "open", none, none, [], [],
        none⟩, "open/1-a2.md", "open"⟩
      ⟨"1", "A", "B", [], [], [], "", "", "open", none, none, [], [], none⟩
      ⟨"1", "A", "B", [], [], [], "", "", "open", none, none, [], [],
        none⟩).2 _ _ _ (by decide) (by decide) (by decide)

/-! ### The force override (C8) -/

/-- C8 (amended): with force set, no record with a local copy is ever
reported as a conflict; a record is counted unchanged - nothing written,
original snapshot left as it is - exactly when an original exists, the
local copy already equals the (normalized) remote and the path is
unchanged; every written record gets the remote content and its original
snapshot refreshed to the remote; and for a record whose local copy equals
its original snapshot, force changes nothing. -/
theorem pull_force_behavior (now : Nat) (lf : IssueFile)
    (origOpt : Option Issue) (remote : Issue) :
    (processRemote true now (some lf) origOpt remote ≠ PullOutcome.conflict) ∧
    (processRemote true now (some lf) origOpt remote = PullOutcome.unchanged ↔
      (origOpt.isSome = true ∧
        eqIgnoringSyncedAt lf.issue (normalizeRemote now remote) ∧
        lf.path = pathFor (targetState (normalizeRemote now remote))
          (normalizeRemote now remote).number
          (normalizeRemote now remote).title)) ∧
    (∀ renamed added f o,
      processRemote true now (some lf) origOpt remote =
        PullOutcome.write renamed added f o →
      f = writtenFile (normalizeRemote now remote) ∧
        o = normalizeRemote now remote) ∧
    (∀ o, origOpt = some o → eqIgnoringSyncedAt lf.issue o →
      processRemote true now (some lf) (some o) remote =
        processRemote false now (some lf) (some o) remote) := by
  refine ⟨?_, ?_, ?_, ?_⟩
  · intro hcon
    simp only [processRemote] at hcon
    simp at hcon
    split at hcon <;> simp_all
  · constructor
    · intro hunch
      simp only [processRemote] at hunch
      simp at hunch
      exact hunch
    · intro ⟨hsome, hcontent, hpath⟩
      simp only [processRemote]
      simp [hsome, hcontent, hpath]
  · intro renamed added f o hwrite
    simp only [processRemote] at hwrite
    simp at hwrite
    split at hwrite
    · exact absurd hwrite (by simp)
    · simp only [PullOutcome.write.injEq] at hwrite
      exact ⟨hwrite.2.2.1.symm, hwrite.2.2.2.symm⟩
  · intro o horig heq
    have h1 : processRemote false now (some lf) (some o) remote =
        processRemote true now (some lf) (some o) remote := by
      simp only [processRemote]
      simp [heq]
    exact h1.symm

/-- C8 counterexample, two concrete records refuting the claim as stated.
First: with force set and local and remote both diverged from the original
(a conflict per the spec) but local already equal to the remote, the code
counts the record unchanged - the local file is not rewritten and the
original snapshot is not refreshed, where the claim requires both.  Second:
a record whose local copy diverged but whose remote equals the original (a
clean local update, not a conflict) is not handled as without force: force
overwrites it, where without force it is conflict-skipped. -/
theorem force_override_counterexample :
    processRemote true 5
      (some ⟨⟨"1", "A2", "B", [], [], [], "", "", "open", none, none, [], [],
        some 1⟩, "open/1-a2.md", "open"⟩)
      (some ⟨"1", "A", "B", [], [], [], "", "", "open", none, none, [], [],
        none⟩)
      ⟨"1", "A2", "B", [], [], [], "", "", "open", none, none, [], [],
        none⟩ = PullOutcome.unchanged ∧
    ¬eqIgnoringSyncedAt
      ⟨"1", "A2", "B", [], [], [], "", "", "open", none, none, [], [],
        some 1⟩
      ⟨"1", "A", "B", [], [], [], "", "", "open", none, none, [], [],
        none⟩ ∧
    ¬eqIgnoringSyncedAt
      ⟨"1", "A2", "B", [], [], [], "", "", "open", none, none, [], [], none⟩
      ⟨"1", "A", "B", [], [], [], "", "", "open", none, none, [], [],
        none⟩ ∧
    eqIgnoringSyncedAt
      ⟨"1", "A2", "B", [], [], [], "", "", "open", none, none, [], [],
        some 1⟩
      ⟨"1", "A2", "B", [], [], [], "", "", "open", none, none, [], [],
        none⟩ ∧
    processRemote true 5
      (some ⟨⟨"1", "B2", "B", [], [], [], "", "", "open", none, none, [], [],
        none⟩, "open/1-a.md", "open"⟩)
      (some ⟨"1", "A", "B", [], [], [], "", "", "open", none, none, [], [],
        none⟩)
      ⟨"1", "A", "B", [], [], [], "", "", "open", none, none, [], [],
        none⟩ =
      PullOutcome.write false false
        (writtenFile (normalizeRemote 5
          ⟨"1", "A", "B", [], [], [], "", "", "open", none, none, [], [],
            none⟩))
        (normalizeRemote 5
          ⟨"1", "A", "B", [], [], [], "", "", "open", none, none, [], [],
            none⟩) ∧
    processRemote false 5
      (some ⟨⟨"1", "B2", "B", [], [], [], "", "", "open", none, none, [], [],
        none⟩, "open/1-a.md", "open"⟩)
      (some ⟨"1", "A", "B", [], [], [], "", "", "open", none, none, [], [],
        none⟩)
      ⟨"1", "A", "B", [], [], [], "", "", "open", none, none, [], [],
        none⟩ = PullOutcome.conflict := by
  refine ⟨by decide, by decide, by decide, by decide, by decide, by decide⟩

/-- Witness for C8 at concrete records: the unchanged classification of a
force pull via the iff, and force-independence for a record whose local
copy equals its original snapshot. -/
theorem pull_force_behavior_witness :
    processRemote true 7
      (some ⟨⟨"1", "A2", "B", [], [], [], "", "", "open", none, none, [], [],
        some 1⟩, "open/1-a2.md", "open"⟩)
      (some ⟨"1", "A", "B", [], [], [], "", "", "open", none, none, [], [],
        none⟩)
      ⟨"1", "A2", "B", [], [], [], "", "", "open", none, none, [], [],
        none⟩ = PullOutcome.unchanged ∧
    processRemote true 7
      (some ⟨⟨"1", "A", "B", [], [], [], "", "", "open", none, none, [], [],
        none⟩, "open/1-a.md", "open"⟩)
      (some ⟨"1", "A", "B", [], [], [], "", "", "open", none, none, [], [],
        none⟩)
      ⟨"1", "A", "B", [], [], [], "", "", "open", none, none, [], [],
        none⟩ =
      processRemote false 7
        (some ⟨⟨"1", "A", "B", [], [], [], "", "", "open", none, none, [],
          [], none⟩, "open/1-a.md", "open"⟩)
        (some ⟨"1", "A", "B", [], [], [], "", "", "open", none, none, [], [],
          none⟩)
        ⟨"1", "A", "B", [], [], [], "", "", "open", none, none, [], [],
          none⟩ :=
  ⟨(pull_force_behavior 7
      ⟨⟨"1", "A2", "B", [], [], [], "", "", "open", none, none, [], [],
        some 1⟩, "open/1-a2.md", "open"⟩
      (some ⟨"1", "A", "B", [], [], [], "", "", "open", none, none, [], [],
        none⟩)
      ⟨"1", "A2", "B", [], [], [], "", "", "open", none, none, [], [],
        none⟩).2.1.mpr ⟨by decide, by decide, by decide⟩,
   (pull_force_behavior 7
      ⟨⟨"1", "A", "B", [], [], [], "", "", "open", none, none, [], [],
        none⟩, "open/1-a.md", "open"⟩
      (some ⟨"1", "A", "B", [], [], [], "", "", "open", none, none, [], [],
        none⟩)
      ⟨"1", "A", "B", [], [], [], "", "", "open", none, none, [], [],
        none⟩).2.2.2
    ⟨"1", "A", "B", [], [], [], "", "", "open", none, none, [], [], none⟩
    rfl (by decide)⟩

/-! ### Pull idempotence (C3) -/

theorem processRemote_eq (force : Bool) (now : Nat) (lo : Option IssueFile)
    (oo : Option Issue) (r : Issue) :
    processRemote force now lo oo r =
      if lo.isSome && localChangedB lo oo && !force then PullOutcome.conflict
      else if oo.isSome && !contentChangedB now lo r && !pathChangedB now lo r
        then PullOutcome.unchanged
      else PullOutcome.write (pathChangedB now lo r) lo.isNone
        (writtenFile (normalizeRemote now r)) (normalizeRemote now r) := rfl

theorem contentChangedB_now (a b : Nat) (lo : Option IssueFile) (r : Issue) :
    contentChangedB a lo r = contentChangedB b lo r := rfl

theorem pathChangedB_now (a b : Nat) (lo : Option IssueFile) (r : Issue) :
    pathChangedB a lo r = pathChangedB b lo r := rfl

theorem processRemote_conflict_now {force : Bool} {a : Nat} (b : Nat)
    {lo : Option IssueFile} {oo : Option Issue} {r : Issue}
    (h : processRemote force a lo oo r = PullOutcome.conflict) :
    processRemote force b lo oo r = PullOutcome.conflict := by
  rw [processRemote_eq] at h ⊢
  rw [contentChangedB_now b a, pathChangedB_now b a]
  by_cases h1 : (lo.isSome && localChangedB lo oo && !force) = true
  · simp [h1]
  · simp only [h1, if_false, Bool.false_eq_true] at h ⊢
    split at h <;> simp_all

theorem processRemote_unchanged_now {force : Bool} {a : Nat} (b : Nat)
    {lo : Option IssueFile} {oo : Option Issue} {r : Issue}
    (h : processRemote force a lo oo r = PullOutcome.unchanged) :
    processRemote force b lo oo r = PullOutcome.unchanged := by
  rw [processRemote_eq] at h ⊢
  rw [contentChangedB_now b a, pathChangedB_now b a]
  by_cases h1 : (lo.isSome && localChangedB lo oo && !force) = true
  · simp [h1] at h
  · simp only [h1, if_false, Bool.false_eq_true] at h ⊢
    by_cases h2 : (oo.isSome && !contentChangedB a lo r &&
        !pathChangedB a lo r) = true
    · simp [h2]
    · simp [h2] at h

theorem sameStringSet_refl (l : List String) : sameStringSet l l :=
  ⟨fun _ hx => hx, fun _ hx => hx⟩

theorem eqIgnoringSyncedAt_refl (i : Issue) : eqIgnoringSyncedAt i i :=
  ⟨rfl, rfl, rfl, sameStringSet_refl _, sameStringSet_refl _,
    sameStringSet_refl _, rfl, rfl, rfl, rfl, rfl, rfl, rfl⟩

theorem targetState_normalized {r : Issue}
    (h : toLowerStr r.state = "open" ∨ toLowerStr r.state = "closed")
    (now : Nat) :
    targetState (normalizeRemote now r) = (normalizeRemote now r).state := by
  cases h with
  | inl ho => simp [targetState, normalizeRemote, ho]
  | inr hc => simp [targetState, normalizeRemote, hc]

theorem writtenFile_issue_normalized {r : Issue}
    (h : toLowerStr r.state = "open" ∨ toLowerStr r.state = "closed")
    (now : Nat) :
    (writtenFile (normalizeRemote now r)).issue = normalizeRemote now r := by
  unfold writtenFile
  rw [targetState_normalized h now]

/-- A record just written by the loop is classified unchanged by a later
run: its local copy equals its original snapshot and the remote, and its
path is already the derived one (requires the remote's lowercased state to
be open or closed, since loading a record back overrides its state with
the directory's). -/
theorem processRemote_written_stable (force : Bool) (now1 now2 : Nat)
    (r : Issue)
    (h : force = true →
      toLowerStr r.state = "open" ∨ toLowerStr r.state = "closed") :
    processRemote force now2 (some (writtenFile (normalizeRemote now1 r)))
        (some (normalizeRemote now1 r)) r = PullOutcome.conflict ∨
    processRemote force now2 (some (writtenFile (normalizeRemote now1 r)))
        (some (normalizeRemote now1 r)) r = PullOutcome.unchanged := by
  by_cases hst : toLowerStr r.state = "open" ∨ toLowerStr r.state = "closed"
  · right
    rw [processRemote_eq]
    have hiss := writtenFile_issue_normalized hst now1
    have heq12 : eqIgnoringSyncedAt (normalizeRemote now1 r)
        (normalizeRemote now2 r) :=
      ⟨rfl, rfl, rfl, sameStringSet_refl _, sameStringSet_refl _,
        sameStringSet_refl _, rfl, rfl, rfl, rfl, rfl, rfl, rfl⟩
    have hlc : localChangedB (some (writtenFile (normalizeRemote now1 r)))
        (some (normalizeRemote now1 r)) = false := by
      simp [localChangedB, hiss, eqIgnoringSyncedAt_refl]
    have hcc : contentChangedB now2
        (some (writtenFile (normalizeRemote now1 r))) r = false := by
      simp [contentChangedB, hiss, heq12]
    have hpc : pathChangedB now2
        (some (writtenFile (normalizeRemote now1 r))) r = false := by
      simp [pathChangedB, writtenFile, normalizeRemote, targetState]
    simp [hlc, hcc, hpc]
  · cases hf : force with
    | true => exact absurd (h hf) hst
    | false =>
      left
      rw [processRemote_eq]
      have hlc : localChangedB (some (writtenFile (normalizeRemote now1 r)))
          (some (normalizeRemote now1 r)) = true := by
        simp only [localChangedB, decide_eq_true_eq]
        intro heq
        have hstate := heq.2.2.2.2.2.2.2.2.1
        have : targetState (normalizeRemote now1 r) =
            (normalizeRemote now1 r).state := hstate
        simp only [targetState, normalizeRemote] at this
        by_cases hcl : toLowerStr r.state = "closed"
        · exact hst (Or.inr hcl)
        · rw [if_neg hcl] at this
          exact hst (Or.inl this.symm)
      simp [hlc]

theorem pullLoop_nil (force : Bool) (now : Nat)
    (snapshot : List (String × IssueFile)) (st : Store) :
    pullLoop force now snapshot [] st = (st, 0, 0) := rfl

theorem pullLoop_cons_skip (force : Bool) (now : Nat)
    (snapshot : List (String × IssueFile)) (r : Issue) (rest : List Issue)
    (st : Store)
    (h : processRemote force now (lookupAssoc snapshot r.number)
        (lookupAssoc st.originals r.number) r = PullOutcome.conflict ∨
      processRemote force now (lookupAssoc snapshot r.number)
        (lookupAssoc st.originals r.number) r = PullOutcome.unchanged) :
    pullLoop force now snapshot (r :: rest) st =
      pullLoop force now snapshot rest st := by
  cases h with
  | inl h => simp only [pullLoop, h]
  | inr h => simp only [pullLoop, h]

theorem pullLoop_cons_write (force : Bool) (now : Nat)
    (snapshot : List (String × IssueFile)) (r : Issue) (rest : List Issue)
    (st : Store) (renamed added : Bool) (f : IssueFile) (o : Issue)
    (h : processRemote force now (lookupAssoc snapshot r.number)
        (lookupAssoc st.originals r.number) r =
      PullOutcome.write renamed added f o) :
    pullLoop force now snapshot (r :: rest) st =
      ((pullLoop force now snapshot rest
          (storeWriteOriginal (storeWriteLocal st f) o)).1,
       (pullLoop force now snapshot rest
          (storeWriteOriginal (storeWriteLocal st f) o)).2.1 + 2,
       (pullLoop force now snapshot rest
          (storeWriteOriginal (storeWriteLocal st f) o)).2.2 +
         (if renamed then 1 else 0)) := by
  simp only [pullLoop, h]

theorem pullLoop_zero (force : Bool) (now : Nat) (remotes : List Issue)
    (st : Store)
    (h : ∀ r ∈ remotes,
      processRemote force now (lookupAssoc st.locals r.number)
        (lookupAssoc st.originals r.number) r = PullOutcome.conflict ∨
      processRemote force now (lookupAssoc st.locals r.number)
        (lookupAssoc st.originals r.number) r = PullOutcome.unchanged) :
    pullLoop force now st.locals remotes st = (st, 0, 0) := by
  induction remotes with
  | nil => rfl
  | cons r rest ih =>
    rw [pullLoop_cons_skip force now st.locals r rest st
      (h r (List.mem_cons_self _ _))]
    exact ih fun g hg => h g (List.mem_cons_of_mem _ hg)

theorem processRemote_write_inv (force : Bool) (now : Nat)
    (lo : Option IssueFile) (oo : Option Issue) (r : Issue)
    (renamed added : Bool) (f : IssueFile) (o : Issue)
    (h : processRemote force now lo oo r =
      PullOutcome.write renamed added f o) :
    f = writtenFile (normalizeRemote now r) ∧ o = normalizeRemote now r := by
  rw [processRemote_eq] at h
  split at h
  · exact absurd h (by simp)
  · split at h
    · exact absurd h (by simp)
    · simp only [PullOutcome.write.injEq] at h
      exact ⟨h.2.2.1.symm, h.2.2.2.symm⟩

theorem writtenFile_number (r : Issue) :
    (writtenFile r).issue.number = r.number := rfl

theorem pullLoop_lookup (force : Bool) (now : Nat)
    (snapshot : List (String × IssueFile)) :
    ∀ (remotes : List Issue) (st : Store) (n : String),
    (lookupAssoc ((pullLoop force now snapshot remotes st).1).locals n =
        lookupAssoc st.locals n ∧
      lookupAssoc ((pullLoop force now snapshot remotes st).1).originals n =
        lookupAssoc st.originals n) ∨
    (∃ r ∈ remotes, r.number = n ∧
      lookupAssoc ((pullLoop force now snapshot remotes st).1).locals n =
        some (writtenFile (normalizeRemote now r)) ∧
      lookupAssoc ((pullLoop force now snapshot remotes st).1).originals n =
        some (normalizeRemote now r)) := by
  intro remotes
  induction remotes with
  | nil => intro st n; left; exact ⟨rfl, rfl⟩
  | cons r rest ih =>
    intro st n
    cases hpr : processRemote force now (lookupAssoc snapshot r.number)
        (lookupAssoc st.originals r.number) r with
    | conflict =>
      rw [pullLoop_cons_skip force now snapshot r rest st (Or.inl hpr)]
      rcases ih st n with h | ⟨g, hg, hgn, h1, h2⟩
      · exact Or.inl h
      · exact Or.inr ⟨g, List.mem_cons_of_mem _ hg, hgn, h1, h2⟩
    | unchanged =>
      rw [pullLoop_cons_skip force now snapshot r rest st (Or.inr hpr)]
      rcases ih st n with h | ⟨g, hg, hgn, h1, h2⟩
      · exact Or.inl h
      · exact Or.inr ⟨g, List.mem_cons_of_mem _ hg, hgn, h1, h2⟩
    | write renamed added f o =>
      obtain ⟨hf, ho⟩ := processRemote_write_inv force now _ _ r renamed added
        f o hpr
      subst hf
      subst ho
      rw [pullLoop_cons_write force now snapshot r rest st renamed added _ _
        hpr]
      simp only
      rcases ih (storeWriteOriginal (storeWriteLocal st
          (writtenFile (normalizeRemote now r)))
          (normalizeRemote now r)) n with ⟨h1, h2⟩ | ⟨g, hg, hgn, h1, h2⟩
      · by_cases hn : n = r.number
        · subst hn
          right
          refine ⟨r, List.mem_cons_self _ _, rfl, ?_, ?_⟩
          · rw [h1]
            simp only [storeWriteOriginal, storeWriteLocal]
            rw [show (writtenFile (normalizeRemote now r)).issue.number =
              r.number from rfl]
            rw [lookupAssoc_setAssoc_self]
          · rw [h2]
            simp only [storeWriteOriginal, storeWriteLocal]
            rw [show (normalizeRemote now r).number = r.number from rfl]
            rw [lookupAssoc_setAssoc_self]
        · left
          constructor
          · rw [h1]
            simp only [storeWriteOriginal, storeWriteLocal]
            rw [lookupAssoc_setAssoc_ne _ _ _ _ (by
              rw [writtenFile_number]
              exact fun he => hn (by simpa [normalizeRemote] using he))]
          · rw [h2]
            simp only [storeWriteOriginal, storeWriteLocal]
            rw [lookupAssoc_setAssoc_ne _ _ _ _ (fun he => hn (by
              simpa [normalizeRemote] using he))]
      · exact Or.inr ⟨g, List.mem_cons_of_mem _ hg, hgn, h1, h2⟩

theorem pullLoop_stable (force : Bool) (now : Nat)
    (snapshot : List (String × IssueFile)) :
    ∀ (remotes : List Issue) (st : Store),
      remotes.Pairwise (fun a b => a.number ≠ b.number) →
      (∀ g ∈ remotes,
        lookupAssoc snapshot g.number = lookupAssoc st.locals g.number) →
      ∀ r ∈ remotes,
        (lookupAssoc ((pullLoop force now snapshot remotes st).1).locals
            r.number = some (writtenFile (normalizeRemote now r)) ∧
          lookupAssoc ((pullLoop force now snapshot remotes st).1).originals
            r.number = some (normalizeRemote now r)) ∨
        (lookupAssoc ((pullLoop force now snapshot remotes st).1).locals
            r.number = lookupAssoc st.locals r.number ∧
          lookupAssoc ((pullLoop force now snapshot remotes st).1).originals
            r.number = lookupAssoc st.originals r.number ∧
          (processRemote force now (lookupAssoc st.locals r.number)
              (lookupAssoc st.originals r.number) r = PullOutcome.conflict ∨
            processRemote force now (lookupAssoc st.locals r.number)
              (lookupAssoc st.originals r.number) r =
              PullOutcome.unchanged)) := by
  intro remotes
  induction remotes with
  | nil => intro st _ _ r hr; exact absurd hr (List.not_mem_nil r)
  | cons r0 rest ih =>
    intro st hpw hsnap r hr
    obtain ⟨hpw0, hpwrest⟩ := List.pairwise_cons.mp hpw
    have hsnap0 := hsnap r0 (List.mem_cons_self _ _)
    cases hpr : processRemote force now (lookupAssoc snapshot r0.number)
        (lookupAssoc st.originals r0.number) r0 with
    | conflict =>
      rw [pullLoop_cons_skip force now snapshot r0 rest st (Or.inl hpr)]
      rcases List.mem_cons.mp hr with hr0 | hrrest
      · subst hr0
        rcases pullLoop_lookup force now snapshot rest st r.number with
          ⟨h1, h2⟩ | ⟨g, hg, hgn, _, _⟩
        · right
          refine ⟨h1, h2, Or.inl ?_⟩
          rw [← hsnap0]
          exact hpr
        · exact absurd hgn.symm (hpw0 g hg)
      · exact ih st hpwrest
          (fun g hg => hsnap g (List.mem_cons_of_mem _ hg)) r hrrest
    | unchanged =>
      rw [pullLoop_cons_skip force now snapshot r0 rest st (Or.inr hpr)]
      rcases List.mem_cons.mp hr with hr0 | hrrest
      · subst hr0
        rcases pullLoop_lookup force now snapshot rest st r.number with
          ⟨h1, h2⟩ | ⟨g, hg, hgn, _, _⟩
        · right
          refine ⟨h1, h2, Or.inr ?_⟩
          rw [← hsnap0]
          exact hpr
        · exact absurd hgn.symm (hpw0 g hg)
      · exact ih st hpwrest
          (fun g hg => hsnap g (List.mem_cons_of_mem _ hg)) r hrrest
    | write renamed added f o =>
      obtain ⟨hf, ho⟩ := processRemote_write_inv force now _ _ r0 renamed
        added f o hpr
      subst hf
      subst ho
      rw [pullLoop_cons_write force now snapshot r0 rest st renamed added _ _
        hpr]
      simp only
      have hst1loc : ∀ n, n ≠ r0.number →
          lookupAssoc (storeWriteOriginal (storeWriteLocal st
            (writtenFile (normalizeRemote now r0)))
            (normalizeRemote now r0)).locals n = lookupAssoc st.locals n := by
        intro n hn
        simp only [storeWriteOriginal, storeWriteLocal]
        rw [lookupAssoc_setAssoc_ne _ _ _ _ (by
          rw [writtenFile_number]
          exact fun he => hn (by simpa [normalizeRemote] using he))]
      have hst1orig : ∀ n, n ≠ r0.number →
          lookupAssoc (storeWriteOriginal (storeWriteLocal st
            (writtenFile (normalizeRemote now r0)))
            (normalizeRemote now r0)).originals n =
            lookupAssoc st.originals n := by
        intro n hn
        simp only [storeWriteOriginal, storeWriteLocal]
        rw [lookupAssoc_setAssoc_ne _ _ _ _ (fun he => hn (by
          simpa [normalizeRemote] using he))]
      rcases List.mem_cons.mp hr with hr0 | hrrest
      · subst hr0
        rcases pullLoop_lookup force now snapshot rest
            (storeWriteOriginal (storeWriteLocal st
              (writtenFile (normalizeRemote now r)))
              (normalizeRemote now r)) r.number with
          ⟨h1, h2⟩ | ⟨g, hg, hgn, _, _⟩
        · left
          constructor
          · rw [h1]
            simp only [storeWriteOriginal, storeWriteLocal]
            rw [show (writtenFile (normalizeRemote now r)).issue.number =
              r.number from rfl]
            rw [lookupAssoc_setAssoc_self]
          · rw [h2]
            simp only [storeWriteOriginal, storeWriteLocal]
            rw [show (normalizeRemote now r).number = r.number from rfl]
            rw [lookupAssoc_setAssoc_self]
        · exact absurd hgn.symm (hpw0 g hg)
      · have hne : r.number ≠ r0.number := fun he =>
          (hpw0 r hrrest) he.symm
        have hsnap' : ∀ g ∈ rest, lookupAssoc snapshot g.number =
            lookupAssoc (storeWriteOriginal (storeWriteLocal st
              (writtenFile (normalizeRemote now r0)))
              (normalizeRemote now r0)).locals g.number := by
          intro g hg
          rw [hst1loc g.number (fun he => (hpw0 g hg) he.symm)]
          exact hsnap g (List.mem_cons_of_mem _ hg)
        rcases ih _ hpwrest hsnap' r hrrest with hA | ⟨h1, h2, hdec⟩
        · exact Or.inl hA
        · right
          rw [hst1loc r.number hne] at h1 hdec
          rw [hst1orig r.number hne] at h2 hdec
          exact ⟨h1, h2, hdec⟩

theorem restoreFold_lookup (client : String → Option Issue)
    (hcn : ∀ n i, client n = some i → i.number = n) (now : Nat) :
    ∀ (lst : List String) (st : Store) (n : String),
    (lookupAssoc ((restoreFold client now lst st).1).locals n =
        lookupAssoc st.locals n ∧
      lookupAssoc ((restoreFold client now lst st).1).originals n =
        lookupAssoc st.originals n) ∨
    (n ∈ lst ∧ ∃ i, client n = some i ∧
      lookupAssoc ((restoreFold client now lst st).1).locals n =
        some (writtenFile (normalizeRemote now i)) ∧
      lookupAssoc ((restoreFold client now lst st).1).originals n =
        some (normalizeRemote now i)) := by
  intro lst
  induction lst with
  | nil => intro st n; left; exact ⟨rfl, rfl⟩
  | cons n0 rest ih =>
    intro st n
    cases hcl : client n0 with
    | none =>
      rw [show restoreFold client now (n0 :: rest) st =
        restoreFold client now rest st by simp only [restoreFold, hcl]]
      rcases ih st n with h | ⟨hmem, i, hi, h1, h2⟩
      · exact Or.inl h
      · exact Or.inr ⟨List.mem_cons_of_mem _ hmem, i, hi, h1, h2⟩
    | some i =>
      have hnum : i.number = n0 := hcn n0 i hcl
      rw [show restoreFold client now (n0 :: rest) st =
        ((restoreFold client now rest
          (storeWriteOriginal (storeWriteLocal st
            (writtenFile (normalizeRemote now i)))
            (normalizeRemote now i))).1,
         (restoreFold client now rest
          (storeWriteOriginal (storeWriteLocal st
            (writtenFile (normalizeRemote now i)))
            (normalizeRemote now i))).2 + 2) by
        simp only [restoreFold, hcl]]
      simp only
      rcases ih (storeWriteOriginal (storeWriteLocal st
          (writtenFile (normalizeRemote now i)))
          (normalizeRemote now i)) n with ⟨h1, h2⟩ | ⟨hmem, j, hj, h1, h2⟩
      · by_cases hn : n = n0
        · subst hn
          right
          refine ⟨List.mem_cons_self _ _, i, hcl, ?_, ?_⟩
          · rw [h1]
            simp only [storeWriteOriginal, storeWriteLocal]
            rw [show (writtenFile (normalizeRemote now i)).issue.number =
              i.number from rfl, hnum]
            rw [lookupAssoc_setAssoc_self]
          · rw [h2]
            simp only [storeWriteOriginal, storeWriteLocal]
            rw [show (normalizeRemote now i).number = i.number from rfl,
              hnum]
            rw [lookupAssoc_setAssoc_self]
        · left
          constructor
          · rw [h1]
            simp only [storeWriteOriginal, storeWriteLocal]
            rw [lookupAssoc_setAssoc_ne _ _ _ _ (by
              rw [writtenFile_number]
              rw [show (normalizeRemote now i).number = i.number from rfl,
                hnum]
              exact hn)]
          · rw [h2]
            simp only [storeWriteOriginal, storeWriteLocal]
            rw [lookupAssoc_setAssoc_ne _ _ _ _ (by
              rw [show (normalizeRemote now i).number = i.number from rfl,
                hnum]
              exact hn)]
      · exact Or.inr ⟨List.mem_cons_of_mem _ hmem, j, hj, h1, h2⟩

theorem restoreFold_locals_isSome (client : String → Option Issue)
    (now : Nat) :
    ∀ (lst : List String) (st : Store) (n : String),
    (lookupAssoc st.locals n).isSome = true →
    (lookupAssoc ((restoreFold client now lst st).1).locals n).isSome =
      true := by
  intro lst
  induction lst with
  | nil => intro st n h; exact h
  | cons n0 rest ih =>
    intro st n h
    cases hcl : client n0 with
    | none =>
      rw [show restoreFold client now (n0 :: rest) st =
        restoreFold client now rest st by simp only [restoreFold, hcl]]
      exact ih st n h
    | some i =>
      rw [show (restoreFold client now (n0 :: rest) st).1 =
        (restoreFold client now rest
          (storeWriteOriginal (storeWriteLocal st
            (writtenFile (normalizeRemote now i)))
            (normalizeRemote now i))).1 by simp only [restoreFold, hcl]]
      refine ih _ n ?_
      simp only [storeWriteOriginal, storeWriteLocal]
      exact lookupAssoc_isSome_setAssoc _ _ _ _ h

theorem restoreFold_processed (client : String → Option Issue)
    (hcn : ∀ n i, client n = some i → i.number = n) (now : Nat) :
    ∀ (lst : List String) (st : Store) (n : String), n ∈ lst →
    client n = none ∨
    (lookupAssoc ((restoreFold client now lst st).1).locals n).isSome =
      true := by
  intro lst
  induction lst with
  | nil => intro st n h; exact absurd h (List.not_mem_nil n)
  | cons n0 rest ih =>
    intro st n hmem
    cases hcl0 : client n0 with
    | none =>
      rw [show restoreFold client now (n0 :: rest) st =
        restoreFold client now rest st by simp only [restoreFold, hcl0]]
      rcases List.mem_cons.mp hmem with hn0 | hrest
      · subst hn0
        exact Or.inl hcl0
      · exact ih st n hrest
    | some i =>
      rw [show (restoreFold client now (n0 :: rest) st).1 =
        (restoreFold client now rest
          (storeWriteOriginal (storeWriteLocal st
            (writtenFile (normalizeRemote now i)))
            (normalizeRemote now i))).1 by simp only [restoreFold, hcl0]]
      rcases List.mem_cons.mp hmem with hn0 | hrest
      · subst hn0
        right
        have hnum : i.number = n := hcn n i hcl0
        refine restoreFold_locals_isSome client now rest _ n ?_
        simp only [storeWriteOriginal, storeWriteLocal]
        rw [show (writtenFile (normalizeRemote now i)).issue.number =
          i.number from rfl, hnum]
        rw [lookupAssoc_setAssoc_self]
        rfl
      · exact ih _ n hrest

theorem restoreFold_zero (client : String → Option Issue) (now : Nat) :
    ∀ (lst : List String) (st : Store), (∀ n ∈ lst, client n = none) →
    restoreFold client now lst st = (st, 0) := by
  intro lst
  induction lst with
  | nil => intro st _; rfl
  | cons n0 rest ih =>
    intro st h
    rw [show restoreFold client now (n0 :: rest) st =
      restoreFold client now rest st by
      simp only [restoreFold, h n0 (List.mem_cons_self _ _)]]
    exact ih st fun n hn => h n (List.mem_cons_of_mem _ hn)

theorem orphanedNumbers_spec (st : Store) (n : String)
    (h : n ∈ orphanedNumbers st) :
    (lookupAssoc st.originals n).isSome = true ∧
    lookupAssoc st.locals n = none ∧ startsWithT n = false := by
  unfold orphanedNumbers at h
  obtain ⟨p, hp, hpn⟩ := List.mem_filterMap.mp h
  by_cases hc : ((lookupAssoc st.locals p.1).isNone && !startsWithT p.1) = true
  · rw [if_pos hc] at hpn
    obtain rfl : p.1 = n := Option.some.injEq _ _ ▸ hpn
    simp only [Bool.and_eq_true, Option.isNone_iff_eq_none,
      Bool.not_eq_true'] at hc
    refine ⟨?_, hc.1, hc.2⟩
    have : (st.originals.find? fun q => decide (q.1 = p.1)).isSome = true :=
      List.find?_isSome.mpr ⟨p, hp, by simp⟩
    simpa [lookupAssoc] using this
  · rw [if_neg hc] at hpn
    exact absurd hpn (by simp)

theorem mem_orphanedNumbers (st : Store) (n : String)
    (horig : (lookupAssoc st.originals n).isSome = true)
    (hloc : lookupAssoc st.locals n = none)
    (hT : startsWithT n = false) : n ∈ orphanedNumbers st := by
  obtain ⟨v, hv⟩ := lookupAssoc_mem_of_isSome _ _ horig
  unfold orphanedNumbers
  refine List.mem_filterMap.mpr ⟨(n, v), hv, ?_⟩
  simp [hloc, hT]

theorem restoreFold_not_mem (client : String → Option Issue)
    (hcn : ∀ n i, client n = some i → i.number = n) (now : Nat)
    (lst : List String) (st : Store) (n : String) (h : n ∉ lst) :
    lookupAssoc ((restoreFold client now lst st).1).locals n =
      lookupAssoc st.locals n ∧
    lookupAssoc ((restoreFold client now lst st).1).originals n =
      lookupAssoc st.originals n := by
  rcases restoreFold_lookup client hcn now lst st n with hres | ⟨hmem, _⟩
  · exact hres
  · exact absurd hmem h

theorem processRemote_conflict_isSome {force : Bool} {now : Nat}
    {lo : Option IssueFile} {oo : Option Issue} {r : Issue}
    (h : processRemote force now lo oo r = PullOutcome.conflict) :
    lo.isSome = true := by
  rw [processRemote_eq] at h
  by_cases h1 : (lo.isSome && localChangedB lo oo && !force) = true
  · exact (Bool.and_eq_true _ _ |>.mp
      ((Bool.and_eq_true _ _ |>.mp h1).1)).1
  · rw [if_neg h1] at h
    split at h <;> simp_all

theorem processRemote_unchanged_isSome {force : Bool} {now : Nat}
    {lo : Option IssueFile} {oo : Option Issue} {r : Issue}
    (h : processRemote force now lo oo r = PullOutcome.unchanged) :
    lo.isSome = true := by
  rw [processRemote_eq] at h
  split at h
  · exact absurd h (by simp)
  · split at h
    · rename_i h2
      have hcc : contentChangedB now lo r = false := by
        have := (Bool.and_eq_true _ _ |>.mp
          ((Bool.and_eq_true _ _ |>.mp h2).1)).2
        simpa using this
      cases lo with
      | none => simp [contentChangedB] at hcc
      | some lf => rfl
    · exact absurd h (by simp)

/-- C3 (amended): with no remote change between the runs, the second pull
performs zero record-file writes and zero renames: every fetched record is
classified conflict or unchanged and the restore phase restores nothing.
On a full pull the second run still performs the configuration-timestamp
write (pull.go lines 198-203), so its write count is exactly that one
write.  Hypotheses: the fetched records carry pairwise-distinct numbers
(the full-pull fetch merge deduplicates by number), the per-number client
returns a record with the requested number, and under force the fetched
states normalize to open or closed (a record file is reloaded with its
directory's state, so other states would re-trigger a forced overwrite). -/
theorem pull_twice_no_record_writes (fullMode force : Bool) (now1 now2 : Nat)
    (remotes : List Issue) (client : String → Option Issue) (st0 : Store)
    (hpw : remotes.Pairwise fun a b => a.number ≠ b.number)
    (hcn : ∀ n i, client n = some i → i.number = n)
    (hforce : force = true → ∀ r ∈ remotes,
      toLowerStr r.state = "open" ∨ toLowerStr r.state = "closed") :
    pull fullMode force now2 remotes client
        (pull fullMode force now1 remotes client st0).1 =
      ((pull fullMode force now1 remotes client st0).1,
        if fullMode then 1 else 0, 0) := by
  have hstabL := pullLoop_stable force now1 st0.locals remotes st0 hpw
    fun g _ => rfl
  cases fullMode with
  | false =>
    have hzero : pullLoop force now2
        ((pullLoop force now1 st0.locals remotes st0).1).locals remotes
        (pullLoop force now1 st0.locals remotes st0).1 =
        ((pullLoop force now1 st0.locals remotes st0).1, 0, 0) := by
      apply pullLoop_zero
      intro r hr
      rcases hstabL r hr with ⟨h1, h2⟩ | ⟨h1, h2, hdec⟩
      · rw [h1, h2]
        exact processRemote_written_stable force now1 now2 r
          fun hf => hforce hf r hr
      · rw [h1, h2]
        rcases hdec with hc | hu
        · exact Or.inl (processRemote_conflict_now now2 hc)
        · exact Or.inr (processRemote_unchanged_now now2 hu)
    simpa [pull] using hzero
  | true =>
    have hpres : ∀ r ∈ remotes,
        lookupAssoc ((restoreFold client now1
            (orphanedNumbers (pullLoop force now1 st0.locals remotes st0).1)
            (pullLoop force now1 st0.locals remotes st0).1).1).locals
          r.number =
          lookupAssoc ((pullLoop force now1 st0.locals remotes st0).1).locals
            r.number ∧
        lookupAssoc ((restoreFold client now1
            (orphanedNumbers (pullLoop force now1 st0.locals remotes st0).1)
            (pullLoop force now1 st0.locals remotes st0).1).1).originals
          r.number =
          lookupAssoc
            ((pullLoop force now1 st0.locals remotes st0).1).originals
            r.number := by
      intro r hr
      have hsome : (lookupAssoc
          ((pullLoop force now1 st0.locals remotes st0).1).locals
          r.number).isSome = true := by
        rcases hstabL r hr with ⟨h1, _⟩ | ⟨h1, _, hdec⟩
        · rw [h1]; rfl
        · rw [h1]
          rcases hdec with hc | hu
          · exact processRemote_conflict_isSome hc
          · exact processRemote_unchanged_isSome hu
      refine restoreFold_not_mem client hcn now1 _ _ _ fun hmem => ?_
      obtain ⟨_, hnone, _⟩ := orphanedNumbers_spec _ _ hmem
      rw [hnone] at hsome
      exact absurd hsome (by simp)
    have hzero : pullLoop force now2
        ((restoreFold client now1
          (orphanedNumbers (pullLoop force now1 st0.locals remotes st0).1)
          (pullLoop force now1 st0.locals remotes st0).1).1).locals remotes
        (restoreFold client now1
          (orphanedNumbers (pullLoop force now1 st0.locals remotes st0).1)
          (pullLoop force now1 st0.locals remotes st0).1).1 =
        ((restoreFold client now1
          (orphanedNumbers (pullLoop force now1 st0.locals remotes st0).1)
          (pullLoop force now1 st0.locals remotes st0).1).1, 0, 0) := by
      apply pullLoop_zero
      intro r hr
      obtain ⟨hp1, hp2⟩ := hpres r hr
      rw [hp1, hp2]
      rcases hstabL r hr with ⟨h1, h2⟩ | ⟨h1, h2, hdec⟩
      · rw [h1, h2]
        exact processRemote_written_stable force now1 now2 r
          fun hf => hforce hf r hr
      · rw [h1, h2]
        rcases hdec with hc | hu
        · exact Or.inl (processRemote_conflict_now now2 hc)
        · exact Or.inr (processRemote_unchanged_now now2 hu)
    have horph : ∀ n ∈ orphanedNumbers (restoreFold client now1
        (orphanedNumbers (pullLoop force now1 st0.locals remotes st0).1)
        (pullLoop force now1 st0.locals remotes st0).1).1,
        client n = none := by
      intro n hn
      obtain ⟨horig1, hloc1, hT⟩ := orphanedNumbers_spec _ _ hn
      rcases restoreFold_lookup client hcn now1
          (orphanedNumbers (pullLoop force now1 st0.locals remotes st0).1)
          (pullLoop force now1 st0.locals remotes st0).1 n with
        ⟨hl, ho⟩ | ⟨_, i, _, hsome, _⟩
      · have hlocL : lookupAssoc
            ((pullLoop force now1 st0.locals remotes st0).1).locals n =
            none := by rw [← hl]; exact hloc1
        have horigL : (lookupAssoc
            ((pullLoop force now1 st0.locals remotes st0).1).originals
            n).isSome = true := by rw [← ho]; exact horig1
        rcases restoreFold_processed client hcn now1 _ _ n
            (mem_orphanedNumbers _ n horigL hlocL hT) with hcl | hsome
        · exact hcl
        · rw [hloc1] at hsome
          exact absurd hsome (by simp)
      · rw [hsome] at hloc1
        exact absurd hloc1 (by simp)
    have hrest2 := restoreFold_zero client now2
      (orphanedNumbers (restoreFold client now1
        (orphanedNumbers (pullLoop force now1 st0.locals remotes st0).1)
        (pullLoop force now1 st0.locals remotes st0).1).1)
      (restoreFold client now1
        (orphanedNumbers (pullLoop force now1 st0.locals remotes st0).1)
        (pullLoop force now1 st0.locals remotes st0).1).1
      horph
    simp only [pull, restoreDeletedIssues, if_pos]
    rw [hzero]
    simp only
    rw [hrest2]
    simp

/-- C3 counterexample, two concrete runs refuting zero file writes on the
second pull.  First: a full pull over an empty store performs one file
write on every run - the advanced last-full-pull timestamp written into
the configuration (pull.go lines 198-203) - so the second run writes once,
not zero times.  Second: a forced pull of a remote record whose state is
neither open nor closed rewrites the record file and its original snapshot
on every run, because the record file is reloaded with its directory's
state and so never equals the remote again. -/
theorem pull_second_run_counterexample :
    pull true false 2 [] (fun _ => none)
        (pull true false 1 [] (fun _ => none) ⟨[], []⟩).1 =
      (⟨[], []⟩, 1, 0) ∧
    (1 : Nat) ≠ 0 ∧
    (pull false true 2
        [⟨"1", "A", "B", [], [], [], "", "", "DELETED", none, none, [], [],
          none⟩]
        (fun _ => none)
        (pull false true 1
          [⟨"1", "A", "B", [], [], [], "", "", "DELETED", none, none, [], [],
            none⟩]
          (fun _ => none) ⟨[], []⟩).1).2.1 = 2 := by
  refine ⟨by decide, by decide, by decide⟩

/-- Witness for C3 at a concrete store: one normalized remote record pulled
twice into an empty store; the second full pull leaves the store unchanged
and performs only the single configuration write and no renames. -/
theorem pull_twice_no_record_writes_witness :
    pull true false 2
        [⟨"7", "T", "B", [], [], [], "", "", "open", none, none, [], [],
          none⟩]
        (fun _ => none)
        (pull true false 1
          [⟨"7", "T", "B", [], [], [], "", "", "open", none, none, [], [],
            none⟩]
          (fun _ => none) ⟨[], []⟩).1 =
      ((pull true false 1
          [⟨"7", "T", "B", [], [], [], "", "", "open", none, none, [], [],
            none⟩]
          (fun _ => none) ⟨[], []⟩).1, 1, 0) :=
  pull_twice_no_record_writes true false 1 2
    [⟨"7", "T", "B", [], [], [], "", "", "open", none, none, [], [], none⟩]
    (fun _ => none) ⟨[], []⟩ (by decide) (fun n i h => nomatch h)
    (fun h => absurd h (by decide))
